import Mathlib

/-!
Verification of the genetic-algorithm timetable scheduler.

The Lean definitions below are a shallow embedding of the Python sources:
`models/*.py` (domain records), `genetic_algorithm/gene.py`,
`genetic_algorithm/chromosome.py`, `genetic_algorithm/fitness.py`,
`genetic_algorithm/operators.py` and `utils/repair_operator.py`.
Python `float` penalties are modelled as rationals (all arithmetic the
evaluator performs is exact on rationals), Python `int` as `Int`,
Python dict iteration over distinct insertion keys as iteration over
`List.dedup`, and the random module as an explicit stream of choices.
-/

namespace GA

/-- Domain record from `models/teacher.py`. -/
structure Teacher where
  teacher_id : Int
  name : String
  preferred_times : List (String × Int)
  deriving DecidableEq, Repr

/-- Domain record from `models/student_group.py`. -/
structure StudentGroup where
  group_id : Int
  name : String
  home_room : Option Int := none
  deriving DecidableEq, Repr

/-- Domain record from `models/room.py`. -/
structure Room where
  room_id : Int
  name : String
  deriving DecidableEq, Repr

/-- Domain record from `models/course.py`. -/
structure Course where
  course_id : Int
  name : String
  deriving DecidableEq, Repr

/-- Domain record from `models/timeslot.py`. -/
structure TimeSlot where
  slot_id : Int
  day : String
  period : Int
  deriving DecidableEq, Repr

/-- One scheduled lesson, from `genetic_algorithm/gene.py`. -/
structure Gene where
  group_id : Int
  day : String
  period : Int
  timeslot_id : Int
  course_id : Int
  teacher_id : Int
  room_id : Int
  is_fixed : Bool := false
  deriving DecidableEq, Repr

/-- The weekday set hard-coded in `Gene.__post_init__`. -/
def validDays : List String :=
  ["Monday", "Tuesday", "Wednesday", "Thursday", "Friday"]

/-- `Gene.__post_init__`: validation performed at construction time.
The period check comes first, then the weekday check; on success the
dataclass stores the given fields unchanged. -/
def mkGene (group_id : Int) (day : String) (period : Int) (timeslot_id : Int)
    (course_id : Int) (teacher_id : Int) (room_id : Int) (is_fixed : Bool) :
    Except String Gene :=
  if period < 1 then Except.error "Period must be a positive integer"
  else if day ∉ validDays then Except.error "Invalid day"
  else Except.ok
    { group_id := group_id, day := day, period := period,
      timeslot_id := timeslot_id, course_id := course_id,
      teacher_id := teacher_id, room_id := room_id, is_fixed := is_fixed }

/-- A full timetable candidate, from `genetic_algorithm/chromosome.py`. -/
structure Chromosome where
  genes : List Gene
  deriving DecidableEq, Repr

/-!
Fitness evaluator — `genetic_algorithm/fitness.py`

Each Python penalty function builds a dict keyed by some projection of the
genes and then folds over the dict entries.  A dict built by repeated
`d[key] = d.get(key, 0) + 1` holds one entry per distinct key whose value
is the number of occurrences, so iterating over its values is iterating
over `keys.dedup` and reading `keys.count k`.
-/

/-- Common shape of `penalty_teacher_conflict`, `penalty_room_conflict`,
`penalty_group_conflict` and `penalty_teacher_multiple_first_periods`:
count occurrences of every key, and each key occurring `c > 1` times
contributes `1000 * (c - 1)`. -/
def conflictPenalty {α : Type} [DecidableEq α] (keys : List α) : ℚ :=
  (keys.dedup.map (fun k =>
    let c := keys.count k
    if 1 < c then (1000 : ℚ) * ((c : ℚ) - 1) else 0)).sum

/-- The `(teacher_id, day, period)` key of `penalty_teacher_conflict`. -/
def teacherKeys (ind : Chromosome) : List (Int × String × Int) :=
  ind.genes.map (fun g => (g.teacher_id, g.day, g.period))

/-- The `(room_id, day, period)` key of `penalty_room_conflict`. -/
def roomKeys (ind : Chromosome) : List (Int × String × Int) :=
  ind.genes.map (fun g => (g.room_id, g.day, g.period))

/-- The `(group_id, day, period)` key of `penalty_group_conflict`. -/
def groupKeys (ind : Chromosome) : List (Int × String × Int) :=
  ind.genes.map (fun g => (g.group_id, g.day, g.period))

/-- `penalty_teacher_conflict` from `fitness.py`. -/
def penalty_teacher_conflict (ind : Chromosome) : ℚ :=
  conflictPenalty (teacherKeys ind)

/-- `penalty_room_conflict` from `fitness.py`. -/
def penalty_room_conflict (ind : Chromosome) : ℚ :=
  conflictPenalty (roomKeys ind)

/-- `penalty_group_conflict` from `fitness.py`. -/
def penalty_group_conflict (ind : Chromosome) : ℚ :=
  conflictPenalty (groupKeys ind)

/-- The `next((t.preferred_times for t in teachers if ...), [])` lookup in
`penalty_teacher_time_preference`: first matching teacher, default `[]`. -/
def prefOf (teachers : List Teacher) (tid : Int) : List (String × Int) :=
  match teachers.find? (fun t => t.teacher_id = tid) with
  | some t => t.preferred_times
  | none => []

/-- `penalty_teacher_time_preference` from `fitness.py`. -/
def penalty_teacher_time_preference (ind : Chromosome) (teachers : List Teacher) : ℚ :=
  (ind.genes.map (fun g =>
    if (g.day, g.period) ∈ prefOf teachers g.teacher_id then (0 : ℚ) else 1)).sum

/-- Distinct teacher ids appearing in the chromosome, in the order the
`teacher_assignments` dict of `penalty_teacher_workload_balance` holds them. -/
def teacherIds (ind : Chromosome) : List Int :=
  (ind.genes.map Gene.teacher_id).dedup

/-- Number of genes assigned to teacher `tid`: the dict value
`teacher_assignments[tid]`. -/
def loadOf (ind : Chromosome) (tid : Int) : Nat :=
  (ind.genes.filter (fun g => g.teacher_id = tid)).length

/-- `penalty_teacher_workload_balance` from `fitness.py`. -/
def penalty_teacher_workload_balance (ind : Chromosome) : ℚ :=
  let loads := (teacherIds ind).map (fun t => (loadOf ind t : ℚ))
  if loads.isEmpty then 0
  else
    let avg := loads.sum / (loads.length : ℚ)
    (loads.map (fun l => |l - avg|)).sum

/-- The `next((g.home_room for g in groups if ...), None)` lookup in
`penalty_group_home_room`. -/
def homeRoomOf (groups : List StudentGroup) (gid : Int) : Option Int :=
  match groups.find? (fun s => s.group_id = gid) with
  | some s => s.home_room
  | none => none

/-- `penalty_group_home_room` from `fitness.py`. -/
def penalty_group_home_room (ind : Chromosome) (groups : List StudentGroup) : ℚ :=
  (ind.genes.map (fun g =>
    match homeRoomOf groups g.group_id with
    | some hr => if g.room_id ≠ hr then (1 : ℚ) else 0
    | none => 0)).sum

/-- The `(teacher_id, day)` keys of the nested `teacher_schedule` dict in
`penalty_subject_distribution`. -/
def tdKeys (ind : Chromosome) : List (Int × String) :=
  ind.genes.map (fun g => (g.teacher_id, g.day))

/-- The period list `teacher_schedule[t][d]` in `penalty_subject_distribution`. -/
def periodsOfTd (ind : Chromosome) (k : Int × String) : List Int :=
  (ind.genes.filter (fun g => g.teacher_id = k.1 ∧ g.day = k.2)).map Gene.period

/-- Number of adjacent pairs differing by exactly one in a (sorted) list:
the loop `for i in range(1, len(periods)): if periods[i] == periods[i-1]+1`. -/
def consecCount : List Int → Nat
  | [] => 0
  | [_] => 0
  | a :: b :: rest => (if b = a + 1 then 1 else 0) + consecCount (b :: rest)

/-- `penalty_subject_distribution` from `fitness.py`. -/
def penalty_subject_distribution (ind : Chromosome) : ℚ :=
  ((tdKeys ind).dedup.map (fun k =>
    (consecCount ((periodsOfTd ind k).insertionSort (· ≤ ·)) : ℚ) * (1 / 2))).sum

/-- Genes of one group: the `timetable.get(group_id, {})` slice of
`Chromosome.to_timetable`, flattened over its per-day lists. -/
def genesOfGroup (ind : Chromosome) (gid : Int) : List Gene :=
  ind.genes.filter (fun g => g.group_id = gid)

/-- `min` of a nonempty Python int list (0 on `[]`, never hit by callers). -/
def listMin : List Int → Int
  | [] => 0
  | a :: rest => rest.foldl min a

/-- `max` of a nonempty Python int list (0 on `[]`, never hit by callers). -/
def listMax : List Int → Int
  | [] => 0
  | a :: rest => rest.foldl max a

/-- The per-day body of `penalty_group_schedule_gap`: with `periods` the
period list of one group on one day (multiplicities kept, as in the Python
`sorted(gene.period for gene in lessons)`), the gap
`expected_slots - actual_slots = (max - min + 1) - len(periods)`. -/
def dayGap (periods : List Int) : ℚ :=
  if periods.isEmpty then 0
  else ((listMax periods - listMin periods + 1 : Int) : ℚ) - (periods.length : ℚ)

/-- `penalty_group_schedule_gap` from `fitness.py` (via
`Chromosome.to_timetable`, whose per-group dict has one key per day on which
the group has a gene). -/
def penalty_group_schedule_gap (ind : Chromosome) (groups : List StudentGroup) : ℚ :=
  (groups.map (fun grp =>
    let gs := genesOfGroup ind grp.group_id
    (((gs.map Gene.day).dedup).map (fun d =>
      dayGap ((gs.filter (fun g => g.day = d)).map Gene.period) * (1 / 2))).sum)).sum

/-- The `(teacher_id, course_id)` keys of `penalty_teacher_same_subject_across_groups`. -/
def tcKeys (ind : Chromosome) : List (Int × Int) :=
  ind.genes.map (fun g => (g.teacher_id, g.course_id))

/-- The set of groups served by one `(teacher, course)` pair. -/
def groupsOfTc (ind : Chromosome) (k : Int × Int) : List Int :=
  ((ind.genes.filter (fun g => g.teacher_id = k.1 ∧ g.course_id = k.2)).map
    Gene.group_id).dedup

/-- `penalty_teacher_same_subject_across_groups` from `fitness.py`. -/
def penalty_teacher_same_subject_across_groups (ind : Chromosome) : ℚ :=
  ((tcKeys ind).dedup.map (fun k =>
    let n := (groupsOfTc ind k).length
    if 1 < n then (1000 : ℚ) * ((n : ℚ) - 1) else 0)).sum

/-- Teacher ids of the genes scheduled at period 1, the multiset counted by
`penalty_teacher_multiple_first_periods`. -/
def firstPeriodTeachers (ind : Chromosome) : List Int :=
  (ind.genes.filter (fun g => g.period = 1)).map Gene.teacher_id

/-- `penalty_teacher_multiple_first_periods` from `fitness.py`. -/
def penalty_teacher_multiple_first_periods (ind : Chromosome) : ℚ :=
  conflictPenalty (firstPeriodTeachers ind)

/-- `evaluate_timetable` from `fitness.py`: the sum of the ten penalty
terms (the Python function returns it wrapped in a 1-tuple). -/
def evaluate_timetable (ind : Chromosome) (teachers : List Teacher)
    (groups : List StudentGroup) : ℚ :=
  penalty_teacher_conflict ind + penalty_room_conflict ind +
    penalty_group_conflict ind +
    penalty_teacher_time_preference ind teachers +
    penalty_teacher_workload_balance ind +
    penalty_group_home_room ind groups +
    penalty_subject_distribution ind +
    penalty_group_schedule_gap ind groups +
    penalty_teacher_same_subject_across_groups ind +
    penalty_teacher_multiple_first_periods ind

/-!
Genetic operators — `genetic_algorithm/operators.py`

Randomness is made explicit: `random.randint(a, b)` (both bounds
inclusive) drawing `r` is modelled as `a + r % (b - a + 1)`, and
`random.choice(seq)` drawing `r` as the element at index `r % len(seq)`
(`none` on an empty sequence, where Python raises `IndexError`).
-/

/-- `random.choice` on a possibly empty list, with the random draw made
explicit as an index. -/
def chooseFrom {α : Type} (l : List α) (r : Nat) : Option α :=
  l.get? (r % l.length)

/-- `crossover` from `operators.py`.  `r` is the draw behind
`random.randint(1, size - 1)`.  The parallel slice assignment first
evaluates both right-hand sides, so the children are
`ind1[:c] ++ ind2[c:]` and `ind2[:c] ++ ind1[c:]`. -/
def crossover (ind1 ind2 : Chromosome) (r : Nat) : Chromosome × Chromosome :=
  let size := ind1.genes.length
  if size < 2 then (ind1, ind2)
  else
    let cxpoint := 1 + r % (size - 1)
    (⟨ind1.genes.take cxpoint ++ ind2.genes.drop cxpoint⟩,
      ⟨ind2.genes.take cxpoint ++ ind1.genes.drop cxpoint⟩)

/-- The `days` list hard-coded in `mutation`. -/
def mutationDays : List String :=
  ["Monday", "Tuesday", "Wednesday", "Thursday", "Friday"]

/-- The `periods` list hard-coded in `mutation`. -/
def mutationPeriods : List Int := [1, 2, 3]

/-- The `timeslot_map` dict comprehension
`{(ts.day, ts.period): ts.slot_id for ts in timeslots}`: on duplicate
`(day, period)` keys the last catalog entry wins. -/
def timeslotLookup (timeslots : List TimeSlot) (k : String × Int) : Option Int :=
  (timeslots.reverse.find? (fun ts => ts.day = k.1 ∧ ts.period = k.2)).map
    TimeSlot.slot_id

/-- The four independent per-gene coin flips and draws consumed by one
iteration of the `mutation` loop. -/
structure MutChoice where
  doTeacher : Bool := false
  teacherIdx : Nat := 0
  doCourse : Bool := false
  courseIdx : Nat := 0
  doRoom : Bool := false
  roomIdx : Nat := 0
  doTime : Bool := false
  dayIdx : Nat := 0
  periodIdx : Nat := 0
  deriving DecidableEq, Repr

/-- Sub-mutation (a): `gene.teacher_id = random.choice(teachers).teacher_id`
(`IndexError` on an empty catalog). -/
def mutTeacher (teachers : List Teacher) (c : MutChoice) (g : Gene) :
    Except String Gene :=
  if c.doTeacher then
    match chooseFrom teachers c.teacherIdx with
    | some t => Except.ok { g with teacher_id := t.teacher_id }
    | none => Except.error "IndexError"
  else Except.ok g

/-- Sub-mutation (b): `gene.course_id = random.choice(courses).course_id`. -/
def mutCourse (courses : List Course) (c : MutChoice) (g : Gene) :
    Except String Gene :=
  if c.doCourse then
    match chooseFrom courses c.courseIdx with
    | some co => Except.ok { g with course_id := co.course_id }
    | none => Except.error "IndexError"
  else Except.ok g

/-- Sub-mutation (c): `gene.room_id = random.choice(rooms).room_id`. -/
def mutRoom (rooms : List Room) (c : MutChoice) (g : Gene) :
    Except String Gene :=
  if c.doRoom then
    match chooseFrom rooms c.roomIdx with
    | some ro => Except.ok { g with room_id := ro.room_id }
    | none => Except.error "IndexError"
  else Except.ok g

/-- Sub-mutation (d): redraw day and period from the hard-coded lists and
resolve `timeslot_id` through `timeslot_map`, raising `KeyError`
(a `LookupError`) when the map has no such key. -/
def mutTime (timeslots : List TimeSlot) (c : MutChoice) (g : Gene) :
    Except String Gene :=
  if c.doTime then
    match chooseFrom mutationDays c.dayIdx, chooseFrom mutationPeriods c.periodIdx with
    | some d, some p =>
      match timeslotLookup timeslots (d, p) with
      | some sid => Except.ok { g with day := d, period := p, timeslot_id := sid }
      | none => Except.error "KeyError"
    | _, _ => Except.error "IndexError"
  else Except.ok g

/-- The body of the `mutation` loop for one gene: the four sub-mutations
fire independently, in source order. -/
def mutGene (teachers : List Teacher) (rooms : List Room) (courses : List Course)
    (timeslots : List TimeSlot) (c : MutChoice) (g : Gene) : Except String Gene := do
  let g1 ← mutTeacher teachers c g
  let g2 ← mutCourse courses c g1
  let g3 ← mutRoom rooms c g2
  mutTime timeslots c g3

/-- The `mutation` loop over the gene list; `cs i` holds the draws consumed
at the gene of index `i`. -/
def mutGenes (teachers : List Teacher) (rooms : List Room) (courses : List Course)
    (timeslots : List TimeSlot) (cs : Nat → MutChoice) :
    Nat → List Gene → Except String (List Gene)
  | _, [] => pure []
  | i, g :: gs => do
    let g2 ← mutGene teachers rooms courses timeslots (cs i) g
    let rest ← mutGenes teachers rooms courses timeslots cs (i + 1) gs
    pure (g2 :: rest)

/-- `mutation` from `operators.py` (the Python function returns the mutated
chromosome wrapped in a 1-tuple). -/
def mutation (ind : Chromosome) (teachers : List Teacher) (rooms : List Room)
    (courses : List Course) (timeslots : List TimeSlot) (cs : Nat → MutChoice) :
    Except String Chromosome := do
  let gs ← mutGenes teachers rooms courses timeslots cs 0 ind.genes
  pure ⟨gs⟩

/-!
Repair operator — `utils/repair_operator.py`

Each sub-repair is a single left-to-right pass over the genes carrying a
schedule map keyed by `(day, period)` and a usage counter.  Both maps are
modelled as total functions (`[]` / `0` defaults, matching `setdefault`
and the `{id: 0 for ...}` initialisation).  `random.randint(1, 3)` in the
group pass is modelled by an explicit stream of draws.
-/

/-- State of the teacher pass (`teacher_schedule`, `teacher_load`) and of
the room pass (`room_schedule`, `room_usage`). -/
structure RState where
  sched : (String × Int) → List Int
  load : Int → Nat

/-- The empty dicts both passes start from. -/
def RState.init : RState := ⟨fun _ => [], fun _ => 0⟩

/-- Python `min(lst, key=f)` on `a :: l`: the first element attaining the
minimal key. -/
def minBy1 (f : Int → Nat) (a : Int) (l : List Int) : Int :=
  l.foldl (fun b x => if f x < f b then x else b) a

/-- The `teacher_preferences` dict comprehension plus its `.get(tid, [])`
read (on duplicate teacher ids the last catalog entry wins). -/
def teacherPrefMap (teachers : List Teacher) (tid : Int) : List (String × Int) :=
  match teachers.reverse.find? (fun t => t.teacher_id = tid) with
  | some t => t.preferred_times
  | none => []

/-- One iteration of the `_resolve_teacher_conflicts` loop. -/
def stepTeacher (teachers : List Teacher) (st : RState) (g : Gene) : RState × Gene :=
  let key := (g.day, g.period)
  let cur := st.sched key
  if g.teacher_id ∈ cur then
    let avail := (teachers.filter (fun t => t.teacher_id ∉ cur)).map Teacher.teacher_id
    match avail with
    | [] =>
      ({ st with sched := fun k => if k = key then cur ++ [g.teacher_id] else st.sched k }, g)
    | a :: rest =>
      let prefAvail := (a :: rest).filter (fun tid => key ∈ teacherPrefMap teachers tid)
      let best :=
        match prefAvail with
        | [] => minBy1 st.load a rest
        | p :: ps => minBy1 st.load p ps
      ({ sched := fun k => if k = key then cur ++ [best] else st.sched k,
         load := fun t => if t = best then st.load t + 1 else st.load t },
        { g with teacher_id := best })
  else
    ({ st with sched := fun k => if k = key then cur ++ [g.teacher_id] else st.sched k }, g)

/-- One iteration of the `_resolve_room_conflicts` loop. -/
def stepRoom (rooms : List Room) (st : RState) (g : Gene) : RState × Gene :=
  let key := (g.day, g.period)
  let cur := st.sched key
  if g.room_id ∈ cur then
    let avail := (rooms.filter (fun r => r.room_id ∉ cur)).map Room.room_id
    match avail with
    | [] =>
      ({ st with sched := fun k => if k = key then cur ++ [g.room_id] else st.sched k }, g)
    | a :: rest =>
      let best := minBy1 st.load a rest
      ({ sched := fun k => if k = key then cur ++ [best] else st.sched k,
         load := fun t => if t = best then st.load t + 1 else st.load t },
        { g with room_id := best })
  else
    ({ st with sched := fun k => if k = key then cur ++ [g.room_id] else st.sched k }, g)

/-- One iteration of the `_resolve_group_conflicts` loop: the state pairs
the next random-draw index with the set of `(group, day, period)` keys
already seen; on a repeated key the course is redrawn by
`random.randint(1, 3)`. -/
def stepGroup (rng : Nat → Nat) (st : Nat × List (Int × String × Int)) (g : Gene) :
    (Nat × List (Int × String × Int)) × Gene :=
  let key := (g.group_id, g.day, g.period)
  if key ∈ st.2 then
    ((st.1 + 1, key :: st.2),
      { g with course_id := ((1 + rng st.1 % 3 : Nat) : Int) })
  else
    ((st.1, key :: st.2), g)

/-- A single left-to-right pass over the genes threading a state. -/
def runPass {σ : Type} (step : σ → Gene → σ × Gene) : σ → List Gene → σ × List Gene
  | st, [] => (st, [])
  | st, g :: gs =>
    let p := step st g
    let q := runPass step p.1 gs
    (q.1, p.2 :: q.2)

/-- `RepairOperator._resolve_teacher_conflicts`. -/
def resolveTeacherConflicts (teachers : List Teacher) (ind : Chromosome) : Chromosome :=
  ⟨(runPass (stepTeacher teachers) RState.init ind.genes).2⟩

/-- `RepairOperator._resolve_room_conflicts`. -/
def resolveRoomConflicts (rooms : List Room) (ind : Chromosome) : Chromosome :=
  ⟨(runPass (stepRoom rooms) RState.init ind.genes).2⟩

/-- `RepairOperator._resolve_group_conflicts`; `rng i` is the draw behind
the `i`-th `random.randint(1, 3)` call of the pass. -/
def resolveGroupConflicts (rng : Nat → Nat) (ind : Chromosome) : Chromosome :=
  ⟨(runPass (stepGroup rng) (0, []) ind.genes).2⟩

/-- `RepairOperator.repair_timetable`: the three passes in sequence. -/
def repair_timetable (ind : Chromosome) (teachers : List Teacher) (rooms : List Room)
    (rng : Nat → Nat) : Chromosome :=
  resolveGroupConflicts rng (resolveRoomConflicts rooms (resolveTeacherConflicts teachers ind))

/-!
Counting infrastructure

Helper lemmas about list sums, `dedup` and fibers of a projection, used to
analyse the dict-based counting loops of the fitness evaluator.
-/

/-- Length minus number of distinct elements, as a rational: the total
over-occupancy a counting dict sees. -/
def dupExcess {α : Type} [DecidableEq α] (l : List α) : ℚ :=
  (l.length : ℚ) - (l.dedup.length : ℚ)

theorem dupExcess_nonneg {α : Type} [DecidableEq α] (l : List α) : 0 ≤ dupExcess l := by
  have h := (List.dedup_sublist l).length_le
  unfold dupExcess
  have : (l.dedup.length : ℚ) ≤ (l.length : ℚ) := by exact_mod_cast h
  linarith

theorem sum_map_nonneg {α : Type} {l : List α} {f : α → ℚ} (h : ∀ a ∈ l, 0 ≤ f a) :
    0 ≤ (l.map f).sum :=
  List.sum_nonneg (fun x hx => by
    obtain ⟨a, ha, rfl⟩ := List.mem_map.1 hx
    exact h a ha)

theorem sum_map_add_distrib {α : Type} (l : List α) (f g : α → ℚ) :
    (l.map (fun a => f a + g a)).sum = (l.map f).sum + (l.map g).sum := by
  induction l with
  | nil => simp
  | cons a t ih => simp [ih]; ring

theorem sum_map_sub_distrib {α : Type} (l : List α) (f g : α → ℚ) :
    (l.map (fun a => f a - g a)).sum = (l.map f).sum - (l.map g).sum := by
  induction l with
  | nil => simp
  | cons a t ih => simp [ih]; ring

theorem sum_map_natCast {α : Type} (l : List α) (f : α → ℕ) :
    (l.map (fun a => (f a : ℚ))).sum = (((l.map f).sum : ℕ) : ℚ) := by
  induction l with
  | nil => simp
  | cons a t ih => simp [ih]

/-- `conflictPenalty` is `1000` times the number of genes in excess of one
occupant per key. -/
theorem conflictPenalty_eq {α : Type} [DecidableEq α] (keys : List α) :
    conflictPenalty keys = 1000 * dupExcess keys := by
  unfold conflictPenalty
  have hcong : keys.dedup.map (fun k =>
        let c := keys.count k
        if 1 < c then (1000 : ℚ) * ((c : ℚ) - 1) else 0) =
      keys.dedup.map (fun k => (1000 : ℚ) * ((keys.count k : ℚ) - 1)) := by
    apply List.map_congr_left
    intro k hk
    have hmem : k ∈ keys := List.mem_dedup.1 hk
    have hpos : 0 < keys.count k := List.count_pos_iff.2 hmem
    by_cases h : 1 < keys.count k
    · simp [h]
    · have h1 : keys.count k = 1 := by omega
      simp [h1]
  rw [hcong]
  rw [List.sum_map_mul_left]
  rw [sum_map_sub_distrib keys.dedup (fun k => ((keys.count k : ℚ))) (fun _ => 1)]
  rw [sum_map_natCast keys.dedup (fun k => keys.count k)]
  rw [List.sum_map_count_dedup_eq_length]
  unfold dupExcess
  simp

theorem conflictPenalty_nonneg {α : Type} [DecidableEq α] (keys : List α) :
    0 ≤ conflictPenalty keys := by
  rw [conflictPenalty_eq]
  have := dupExcess_nonneg keys
  linarith

theorem sum_map_indicator {α : Type} [DecidableEq α] (vs : List α) (x : α)
    (hn : vs.Nodup) :
    (vs.map (fun v => if x = v then (1 : ℚ) else 0)).sum =
      if x ∈ vs then 1 else 0 := by
  induction vs with
  | nil => simp
  | cons a t ih =>
    rw [List.nodup_cons] at hn
    by_cases hxa : x = a
    · subst hxa
      have ht : (t.map (fun v => if x = v then (1 : ℚ) else 0)).sum = 0 := by
        rw [ih hn.2]
        simp [hn.1]
      simp [ht]
    · simp [hxa, ih hn.2]

/-- Fiber decomposition of a list length: summing the sizes of the fibers
of `f` over any duplicate-free list of values covering the image gives the
length of the list. -/
theorem sum_filter_length_eq {α β : Type} [DecidableEq β] (f : α → β)
    (N : List α) (vs : List β) (hn : vs.Nodup) (hcov : ∀ a ∈ N, f a ∈ vs) :
    (vs.map (fun v => ((N.filter (fun a => f a = v)).length : ℚ))).sum =
      (N.length : ℚ) := by
  induction N with
  | nil => simp
  | cons a t ih =>
    have hcov2 : ∀ b ∈ t, f b ∈ vs := fun b hb => hcov b (List.mem_cons_of_mem a hb)
    have hsplit : (vs.map (fun v => (((a :: t).filter (fun b => f b = v)).length : ℚ))) =
        vs.map (fun v => (if f a = v then (1 : ℚ) else 0) +
          ((t.filter (fun b => f b = v)).length : ℚ)) := by
      apply List.map_congr_left
      intro v _
      by_cases h : f a = v
      · simp [List.filter_cons, h]
        ring
      · simp [List.filter_cons, h]
    rw [hsplit, sum_map_add_distrib, ih hcov2, sum_map_indicator vs (f a) hn]
    have : f a ∈ vs := hcov a (List.mem_cons_self a t)
    simp [this]
    ring

theorem dedup_filter {α : Type} [DecidableEq α] (p : α → Bool) (l : List α) :
    (l.filter p).dedup = l.dedup.filter p := by
  induction l with
  | nil => simp
  | cons a t ih =>
    by_cases hpa : p a = true
    · rw [List.filter_cons_of_pos hpa]
      by_cases hat : a ∈ t
      · have haf : a ∈ t.filter p := List.mem_filter.2 ⟨hat, hpa⟩
        rw [List.dedup_cons_of_mem haf, List.dedup_cons_of_mem hat, ih]
      · have haf : a ∉ t.filter p := fun h => hat (List.mem_filter.1 h).1
        rw [List.dedup_cons_of_not_mem haf, List.dedup_cons_of_not_mem hat,
          List.filter_cons_of_pos hpa, ih]
    · have hpa2 : ¬ p a = true := hpa
      rw [List.filter_cons_of_neg hpa2]
      by_cases hat : a ∈ t
      · rw [List.dedup_cons_of_mem hat, ih]
      · rw [List.dedup_cons_of_not_mem hat, List.filter_cons_of_neg hpa2, ih]

/-- Fiber decomposition of the number of distinct elements. -/
theorem sum_filter_dedup_length_eq {α β : Type} [DecidableEq α] [DecidableEq β]
    (f : α → β) (l : List α) (vs : List β) (hn : vs.Nodup)
    (hcov : ∀ a ∈ l, f a ∈ vs) :
    (vs.map (fun v => ((l.filter (fun a => f a = v)).dedup.length : ℚ))).sum =
      (l.dedup.length : ℚ) := by
  have hcong : (vs.map (fun v => ((l.filter (fun a => f a = v)).dedup.length : ℚ))) =
      vs.map (fun v => ((l.dedup.filter (fun a => f a = v)).length : ℚ)) := by
    apply List.map_congr_left
    intro v _
    rw [dedup_filter]
  rw [hcong]
  exact sum_filter_length_eq f l.dedup vs hn
    (fun a ha => hcov a (List.mem_dedup.1 ha))

/-- Fiber decomposition of `dupExcess` over the image of the projection. -/
theorem sum_dupExcess_eq {α β : Type} [DecidableEq α] [DecidableEq β]
    (f : α → β) (l : List α) (vs : List β) (hn : vs.Nodup)
    (hcov : ∀ a ∈ l, f a ∈ vs) :
    (vs.map (fun v => dupExcess (l.filter (fun a => f a = v)))).sum = dupExcess l := by
  unfold dupExcess
  rw [sum_map_sub_distrib vs
    (fun v => ((l.filter (fun a => f a = v)).length : ℚ))
    (fun v => ((l.filter (fun a => f a = v)).dedup.length : ℚ))]
  rw [sum_filter_length_eq f l vs hn hcov, sum_filter_dedup_length_eq f l vs hn hcov]

/-- Over an arbitrary duplicate-free value list the fiber `dupExcess` sum is
bounded by the total `dupExcess`. -/
theorem sum_dupExcess_le {α β : Type} [DecidableEq α] [DecidableEq β]
    (f : α → β) (l : List α) (vs : List β) (hn : vs.Nodup) :
    (vs.map (fun v => dupExcess (l.filter (fun a => f a = v)))).sum ≤ dupExcess l := by
  set t : β → ℚ := fun v => dupExcess (l.filter (fun a => f a = v)) with ht
  have htnonneg : ∀ v, 0 ≤ t v := fun v => dupExcess_nonneg _
  have hzero : ∀ v, v ∉ (l.map f).dedup → t v = 0 := by
    intro v hv
    have hempty : l.filter (fun a => f a = v) = [] := by
      apply List.filter_eq_nil_iff.2
      intro a ha hfa
      apply hv
      rw [List.mem_dedup]
      have : f a = v := by simpa using hfa
      exact this ▸ List.mem_map_of_mem f ha
    rw [ht]
    simp only
    rw [hempty]
    simp [dupExcess]
  have himg : ((l.map f).dedup.map t).sum = dupExcess l :=
    sum_dupExcess_eq f l (l.map f).dedup (List.nodup_dedup _)
      (fun a ha => List.mem_dedup.2 (List.mem_map_of_mem f ha))
  rw [← himg]
  have h1 : vs.toFinset.sum t = (vs.map t).sum := List.sum_toFinset t hn
  have h2 : (l.map f).dedup.toFinset.sum t = ((l.map f).dedup.map t).sum :=
    List.sum_toFinset t (List.nodup_dedup _)
  rw [← h1, ← h2]
  have hsub : vs.toFinset.filter (fun v => v ∈ (l.map f).toFinset) ⊆
      (l.map f).dedup.toFinset := by
    intro v hv
    rw [List.mem_toFinset, List.mem_dedup]
    exact List.mem_toFinset.1 (Finset.mem_filter.1 hv).2
  have heq : ∑ v ∈ vs.toFinset, t v =
      ∑ v ∈ vs.toFinset.filter (fun v => v ∈ (l.map f).toFinset), t v := by
    symm
    apply Finset.sum_subset (Finset.filter_subset _ _)
    intro v hv hvn
    apply hzero
    intro hmem
    exact hvn (Finset.mem_filter.2 ⟨hv, List.mem_toFinset.2 (List.mem_dedup.1 hmem)⟩)
  rw [heq]
  exact Finset.sum_le_sum_of_subset_of_nonneg hsub (fun v _ _ => htnonneg v)

theorem foldl_min_bounds (l : List Int) : ∀ a : Int,
    l.foldl min a ≤ a ∧ ∀ x ∈ l, l.foldl min a ≤ x := by
  induction l with
  | nil => intro a; exact ⟨le_refl a, by simp⟩
  | cons b t ih =>
    intro a
    have h := ih (min a b)
    refine ⟨le_trans h.1 (min_le_left a b), ?_⟩
    intro x hx
    rcases List.mem_cons.1 hx with rfl | hxt
    · exact le_trans h.1 (min_le_right a x)
    · exact h.2 x hxt

theorem foldl_max_bounds (l : List Int) : ∀ a : Int,
    a ≤ l.foldl max a ∧ ∀ x ∈ l, x ≤ l.foldl max a := by
  induction l with
  | nil => intro a; exact ⟨le_refl a, by simp⟩
  | cons b t ih =>
    intro a
    have h := ih (max a b)
    refine ⟨le_trans (le_max_left a b) h.1, ?_⟩
    intro x hx
    rcases List.mem_cons.1 hx with rfl | hxt
    · exact le_trans (le_max_right a x) h.1
    · exact h.2 x hxt

theorem listMin_le (P : List Int) (x : Int) (hx : x ∈ P) : listMin P ≤ x := by
  cases P with
  | nil => cases hx
  | cons a rest =>
    rcases List.mem_cons.1 hx with rfl | hxr
    · exact (foldl_min_bounds rest x).1
    · exact (foldl_min_bounds rest a).2 x hxr

theorem le_listMax (P : List Int) (x : Int) (hx : x ∈ P) : x ≤ listMax P := by
  cases P with
  | nil => cases hx
  | cons a rest =>
    rcases List.mem_cons.1 hx with rfl | hxr
    · exact (foldl_max_bounds rest x).1
    · exact (foldl_max_bounds rest a).2 x hxr

/-- The number of distinct integers in a nonempty list is at most the size
of the interval its min and max span. -/
theorem dedup_length_le_span (P : List Int) (hne : P ≠ []) :
    (P.dedup.length : ℚ) ≤ ((listMax P - listMin P + 1 : Int) : ℚ) := by
  have hsub : P.toFinset ⊆ Finset.Icc (listMin P) (listMax P) := by
    intro x hx
    have hx2 := List.mem_toFinset.1 hx
    exact Finset.mem_Icc.2 ⟨listMin_le P x hx2, le_listMax P x hx2⟩
  have hcard := Finset.card_le_card hsub
  rw [List.card_toFinset, Int.card_Icc] at hcard
  obtain ⟨a, ha⟩ : ∃ a, a ∈ P := by
    cases P with
    | nil => exact absurd rfl hne
    | cons b t => exact ⟨b, List.mem_cons_self b t⟩
  have hmm : listMin P ≤ listMax P :=
    le_trans (listMin_le P a ha) (le_listMax P a ha)
  have h0 : (0 : ℤ) ≤ listMax P + 1 - listMin P := by omega
  have hq : (P.dedup.length : ℚ) ≤ (((listMax P + 1 - listMin P).toNat : ℕ) : ℚ) := by
    exact_mod_cast hcard
  have heq2 : (((listMax P + 1 - listMin P).toNat : ℕ) : ℚ) =
      ((listMax P + 1 - listMin P : ℤ) : ℚ) := by
    exact_mod_cast congrArg (fun z : ℤ => (z : ℚ)) (Int.toNat_of_nonneg h0)
  rw [heq2] at hq
  calc (P.dedup.length : ℚ) ≤ ((listMax P + 1 - listMin P : ℤ) : ℚ) := hq
    _ = ((listMax P - listMin P + 1 : Int) : ℚ) := by push_cast; ring

/-- The per-day gap term is bounded below by distinct-count minus length. -/
theorem dayGap_ge (P : List Int) :
    (P.dedup.length : ℚ) - (P.length : ℚ) ≤ dayGap P := by
  by_cases h : P.isEmpty
  · have hnil : P = [] := by
      cases P with
      | nil => rfl
      | cons a t => simp at h
    subst hnil
    simp [dayGap]
  · have hne : P ≠ [] := by
      intro he
      subst he
      simp at h
    unfold dayGap
    rw [if_neg h]
    have := dedup_length_le_span P hne
    linarith

theorem filter_map_comm {α β : Type} (f : α → β) (p : β → Bool) (l : List α) :
    (l.map f).filter p = (l.filter (fun a => p (f a))).map f := by
  induction l with
  | nil => rfl
  | cons a t ih =>
    by_cases h : p (f a) = true
    · simp [List.filter_cons, h, ih]
    · simp [List.filter_cons, h, ih]

theorem sum_map_neg_distrib {α : Type} (l : List α) (f : α → ℚ) :
    (l.map (fun a => -(f a))).sum = -((l.map f).sum) := by
  induction l with
  | nil => simp
  | cons a t ih => simp [ih]; ring

/-- For the genes of a single group, the summed per-day gap terms are
bounded below by minus the number of duplicated `(group, day, period)`
keys. -/
theorem group_day_sum_ge (gid : Int) (gs : List Gene)
    (hgid : ∀ g ∈ gs, g.group_id = gid) :
    -(dupExcess (gs.map (fun g => (g.group_id, g.day, g.period)))) ≤
      (((gs.map Gene.day).dedup).map (fun d =>
        dayGap ((gs.filter (fun g => g.day = d)).map Gene.period))).sum := by
  have hpt : ∀ d ∈ (gs.map Gene.day).dedup,
      ((((gs.filter (fun g => g.day = d)).map Gene.period).dedup.length : ℚ)
          - (((gs.filter (fun g => g.day = d)).map Gene.period).length : ℚ))
        ≤ dayGap ((gs.filter (fun g => g.day = d)).map Gene.period) :=
    fun d _ => dayGap_ge _
  have hsum := List.sum_le_sum hpt
  rw [sum_map_sub_distrib] at hsum
  have hlen : (((gs.map Gene.day).dedup).map (fun d =>
      (((gs.filter (fun g => g.day = d)).map Gene.period).length : ℚ))).sum
      = (gs.length : ℚ) := by
    have hc : (((gs.map Gene.day).dedup).map (fun d =>
        (((gs.filter (fun g => g.day = d)).map Gene.period).length : ℚ)))
        = ((gs.map Gene.day).dedup).map (fun d =>
          ((gs.filter (fun g => Gene.day g = d)).length : ℚ)) := by
      apply List.map_congr_left
      intro d _
      rw [List.length_map]
    rw [hc]
    exact sum_filter_length_eq Gene.day gs (gs.map Gene.day).dedup
      (List.nodup_dedup _)
      (fun g hg => List.mem_dedup.2 (List.mem_map_of_mem Gene.day hg))
  have hfib : ∀ d : String, ((gs.map (fun g => (g.group_id, g.day, g.period))).filter
      (fun k => k.2.1 = d)).dedup.length
      = ((gs.filter (fun g => g.day = d)).map Gene.period).dedup.length := by
    intro d
    have h1 : ((gs.map (fun g => (g.group_id, g.day, g.period))).filter
        (fun k => k.2.1 = d))
        = (gs.filter (fun g => g.day = d)).map
            (fun g => (g.group_id, g.day, g.period)) :=
      filter_map_comm (fun g => (g.group_id, g.day, g.period))
        (fun k => decide (k.2.1 = d)) gs
    have h2 : (gs.filter (fun g => g.day = d)).map
          (fun g => (g.group_id, g.day, g.period))
        = ((gs.filter (fun g => g.day = d)).map Gene.period).map
            (fun p => (gid, d, p)) := by
      rw [List.map_map]
      apply List.map_congr_left
      intro g hg
      have hm := List.mem_filter.1 hg
      have hgd : g.day = d := by simpa using hm.2
      have hgg : g.group_id = gid := hgid g hm.1
      simp [Function.comp, hgd, hgg]
    have hinj : Function.Injective
        (fun p : Int => ((gid, d, p) : Int × String × Int)) := by
      intro x y hxy
      simpa using hxy
    rw [h1, h2, List.dedup_map_of_injective hinj, List.length_map]
  have hded : (((gs.map Gene.day).dedup).map (fun d =>
      (((gs.filter (fun g => g.day = d)).map Gene.period).dedup.length : ℚ))).sum
      = (((gs.map (fun g => (g.group_id, g.day, g.period))).dedup.length : ℚ)) := by
    have hc : (((gs.map Gene.day).dedup).map (fun d =>
        (((gs.filter (fun g => g.day = d)).map Gene.period).dedup.length : ℚ)))
        = ((gs.map Gene.day).dedup).map (fun d =>
          (((gs.map (fun g => (g.group_id, g.day, g.period))).filter
            (fun k => (fun q : Int × String × Int => q.2.1) k = d)).dedup.length : ℚ)) := by
      apply List.map_congr_left
      intro d _
      exact_mod_cast (hfib d).symm
    rw [hc]
    exact sum_filter_dedup_length_eq (fun q : Int × String × Int => q.2.1)
      (gs.map (fun g => (g.group_id, g.day, g.period))) (gs.map Gene.day).dedup
      (List.nodup_dedup _)
      (fun k hk => by
        obtain ⟨g, hg, rfl⟩ := List.mem_map.1 hk
        exact List.mem_dedup.2 (List.mem_map_of_mem Gene.day hg))
  rw [hlen, hded] at hsum
  unfold dupExcess
  rw [List.length_map]
  linarith

/-- Each negatively-counted gap slot stems from a duplicated
`(group, day, period)` key, which the group-conflict term charges 1000 for:
the two terms together are never negative (for a catalog whose group ids
are pairwise distinct). -/
theorem conflict_plus_gap_nonneg (ind : Chromosome) (groups : List StudentGroup)
    (hg : (groups.map StudentGroup.group_id).Nodup) :
    0 ≤ penalty_group_conflict ind + penalty_group_schedule_gap ind groups := by
  have hconf : penalty_group_conflict ind = 1000 * dupExcess (groupKeys ind) :=
    conflictPenalty_eq _
  have hKg : ∀ gid : Int, (genesOfGroup ind gid).map
      (fun g => (g.group_id, g.day, g.period))
      = (groupKeys ind).filter (fun k => k.1 = gid) := by
    intro gid
    unfold genesOfGroup groupKeys
    exact (filter_map_comm (fun g => (g.group_id, g.day, g.period))
      (fun k => decide (k.1 = gid)) ind.genes).symm
  have hpt : ∀ grp ∈ groups,
      -(dupExcess ((groupKeys ind).filter
          (fun k => k.1 = grp.group_id))) * (1 / 2) ≤
        (((((genesOfGroup ind grp.group_id).map Gene.day).dedup)).map (fun d =>
          dayGap (((genesOfGroup ind grp.group_id).filter
            (fun g => g.day = d)).map Gene.period) * (1 / 2))).sum := by
    intro grp _
    have hgid : ∀ g ∈ genesOfGroup ind grp.group_id, g.group_id = grp.group_id := by
      intro g hgmem
      have := (List.mem_filter.1 hgmem).2
      simpa using this
    have hmain := group_day_sum_ge grp.group_id (genesOfGroup ind grp.group_id) hgid
    rw [hKg grp.group_id] at hmain
    have hfac : (((((genesOfGroup ind grp.group_id).map Gene.day).dedup)).map (fun d =>
        dayGap (((genesOfGroup ind grp.group_id).filter
          (fun g => g.day = d)).map Gene.period) * (1 / 2))).sum
        = (((((genesOfGroup ind grp.group_id).map Gene.day).dedup)).map (fun d =>
          dayGap (((genesOfGroup ind grp.group_id).filter
            (fun g => g.day = d)).map Gene.period))).sum * (1 / 2) :=
      List.sum_map_mul_right _ _ _
    rw [hfac]
    have h2 : (0 : ℚ) ≤ 1 / 2 := by norm_num
    exact mul_le_mul_of_nonneg_right hmain h2
  have hsum := List.sum_le_sum hpt
  have hgapeq : penalty_group_schedule_gap ind groups =
      (groups.map (fun grp =>
        (((((genesOfGroup ind grp.group_id).map Gene.day).dedup)).map (fun d =>
          dayGap (((genesOfGroup ind grp.group_id).filter
            (fun g => g.day = d)).map Gene.period) * (1 / 2))).sum)).sum :=
    rfl
  rw [← hgapeq] at hsum
  have hfac2 : (groups.map (fun grp =>
      -(dupExcess ((groupKeys ind).filter
        (fun k => k.1 = grp.group_id))) * (1 / 2))).sum
      = -((groups.map (fun grp =>
          dupExcess ((groupKeys ind).filter
            (fun k => k.1 = grp.group_id)))).sum) * (1 / 2) := by
    have hmc : (groups.map (fun grp =>
        -(dupExcess ((groupKeys ind).filter (fun k => k.1 = grp.group_id))) * (1 / 2)))
        = groups.map (fun grp =>
          -(dupExcess ((groupKeys ind).filter (fun k => k.1 = grp.group_id)) * (1 / 2))) :=
      List.map_congr_left (fun grp _ => by ring)
    rw [hmc, sum_map_neg_distrib, List.sum_map_mul_right _ _ _]
    ring
  have hle : (groups.map (fun grp =>
      dupExcess ((groupKeys ind).filter
        (fun k => k.1 = grp.group_id)))).sum ≤ dupExcess (groupKeys ind) := by
    have hmm : (groups.map (fun grp =>
        dupExcess ((groupKeys ind).filter (fun k => k.1 = grp.group_id))))
        = (groups.map StudentGroup.group_id).map (fun v =>
          dupExcess ((groupKeys ind).filter
            (fun k => (fun q : Int × String × Int => q.1) k = v))) := by
      rw [List.map_map]
      rfl
    rw [hmm]
    exact sum_dupExcess_le (fun q : Int × String × Int => q.1) (groupKeys ind)
      (groups.map StudentGroup.group_id) hg
  rw [hfac2] at hsum
  have hnn := dupExcess_nonneg (groupKeys ind)
  rw [hconf]
  nlinarith [hsum, hle, hnn]

theorem penalty_teacher_time_preference_nonneg (ind : Chromosome)
    (teachers : List Teacher) : 0 ≤ penalty_teacher_time_preference ind teachers := by
  apply sum_map_nonneg
  intro g _
  split <;> norm_num

theorem penalty_teacher_workload_balance_nonneg (ind : Chromosome) :
    0 ≤ penalty_teacher_workload_balance ind := by
  unfold penalty_teacher_workload_balance
  dsimp only
  split
  · exact le_refl 0
  · apply sum_map_nonneg
    intro a _
    exact abs_nonneg _

theorem penalty_group_home_room_nonneg (ind : Chromosome)
    (groups : List StudentGroup) : 0 ≤ penalty_group_home_room ind groups := by
  apply sum_map_nonneg
  intro g _
  cases h : homeRoomOf groups g.group_id with
  | none => simp
  | some hr =>
    simp only
    split <;> norm_num

theorem penalty_subject_distribution_nonneg (ind : Chromosome) :
    0 ≤ penalty_subject_distribution ind := by
  apply sum_map_nonneg
  intro k _
  positivity

theorem penalty_same_subject_nonneg (ind : Chromosome) :
    0 ≤ penalty_teacher_same_subject_across_groups ind := by
  apply sum_map_nonneg
  intro k _
  dsimp only
  split
  · rename_i h
    have h2 : (2 : ℚ) ≤ ((groupsOfTc ind k).length : ℚ) := by exact_mod_cast h
    nlinarith
  · exact le_refl 0

/-- C1: for every chromosome and every catalog of teachers and groups
(group ids pairwise distinct, as catalog records carry a stable unique
identity), the total penalty returned by `evaluate_timetable` is
non-negative and equals the sum of the ten individual penalty terms. -/
theorem evaluate_timetable_spec (ind : Chromosome) (teachers : List Teacher)
    (groups : List StudentGroup)
    (hg : (groups.map StudentGroup.group_id).Nodup) :
    0 ≤ evaluate_timetable ind teachers groups
    ∧ evaluate_timetable ind teachers groups =
      penalty_teacher_conflict ind + penalty_room_conflict ind +
      penalty_group_conflict ind +
      penalty_teacher_time_preference ind teachers +
      penalty_teacher_workload_balance ind +
      penalty_group_home_room ind groups +
      penalty_subject_distribution ind +
      penalty_group_schedule_gap ind groups +
      penalty_teacher_same_subject_across_groups ind +
      penalty_teacher_multiple_first_periods ind := by
  refine ⟨?_, rfl⟩
  have h1 := conflictPenalty_nonneg (teacherKeys ind)
  have h2 := conflictPenalty_nonneg (roomKeys ind)
  have h3 := conflict_plus_gap_nonneg ind groups hg
  have h4 := penalty_teacher_time_preference_nonneg ind teachers
  have h5 := penalty_teacher_workload_balance_nonneg ind
  have h6 := penalty_group_home_room_nonneg ind groups
  have h7 := penalty_subject_distribution_nonneg ind
  have h8 := penalty_same_subject_nonneg ind
  have h9 := conflictPenalty_nonneg (firstPeriodTeachers ind)
  unfold evaluate_timetable
  unfold penalty_teacher_conflict at *
  unfold penalty_room_conflict at *
  unfold penalty_teacher_multiple_first_periods at *
  linarith

/-!
Configuration — `config/settings.py` (defaults of `SchedulingConfig`)
-/

namespace SchedulingConfig

/-- `DAYS_OF_WEEK` default. -/
def DAYS_OF_WEEK : List String :=
  ["Monday", "Tuesday", "Wednesday", "Thursday", "Friday"]

/-- `PERIODS_PER_DAY` default: `list(range(1, 7))`. -/
def PERIODS_PER_DAY : List Int := [1, 2, 3, 4, 5, 6]

end SchedulingConfig

/-- Shorthand for concrete genes in examples (fields in dataclass order,
`is_fixed` defaulted to `false`). -/
def mkG (gid : Int) (d : String) (p tsid cid tid rid : Int) : Gene :=
  { group_id := gid, day := d, period := p, timeslot_id := tsid,
    course_id := cid, teacher_id := tid, room_id := rid }

/-- Witness for C1 at a concrete chromosome and catalog. -/
theorem evaluate_timetable_spec_witness :
    (([{ group_id := 1, name := "G1", home_room := some 1 }] : List StudentGroup).map
      StudentGroup.group_id).Nodup
    ∧ 0 ≤ evaluate_timetable
        ⟨[mkG 1 "Monday" 1 1 1 1 1, mkG 1 "Monday" 2 2 2 2 2]⟩
        [{ teacher_id := 1, name := "T1", preferred_times := [("Monday", 1)] }]
        [{ group_id := 1, name := "G1", home_room := some 1 }] :=
  ⟨by decide, (evaluate_timetable_spec
    ⟨[mkG 1 "Monday" 1 1 1 1 1, mkG 1 "Monday" 2 2 2 2 2]⟩
    [{ teacher_id := 1, name := "T1", preferred_times := [("Monday", 1)] }]
    [{ group_id := 1, name := "G1", home_room := some 1 }] (by decide)).1⟩

/-- The spec's phrasing of a hard conflict term: a sum over the set of
occupied keys, each key occupied by `c > 1` genes contributing
`1000 * (c - 1)`. -/
def specConflictSum {α : Type} [DecidableEq α] (keys : List α) : ℚ :=
  ∑ k ∈ keys.toFinset,
    (let c := keys.count k
    if 1 < c then (1000 : ℚ) * ((c : ℚ) - 1) else 0)

theorem conflictPenalty_eq_spec {α : Type} [DecidableEq α] (keys : List α) :
    conflictPenalty keys = specConflictSum keys := by
  unfold conflictPenalty specConflictSum
  have hts : keys.dedup.toFinset = keys.toFinset := by
    ext x
    simp
  rw [← hts, List.sum_toFinset _ (List.nodup_dedup keys)]

theorem conflictPenalty_eq_zero_of_nodup {α : Type} [DecidableEq α]
    {keys : List α} (h : keys.Nodup) : conflictPenalty keys = 0 := by
  rw [conflictPenalty_eq]
  unfold dupExcess
  rw [List.dedup_eq_self.2 h]
  ring

/-- Evaluation helper: a conflict penalty from concrete length counts. -/
theorem conflictPenalty_concrete {α : Type} [DecidableEq α] (keys : List α)
    (n m : ℕ) (h1 : keys.length = n) (h2 : keys.dedup.length = m) :
    conflictPenalty keys = 1000 * ((n : ℚ) - (m : ℚ)) := by
  rw [conflictPenalty_eq]
  unfold dupExcess
  rw [h1, h2]

/-- C4: each of the three hard conflict terms is the spec's keyed collision
sum `1000 × (count − 1)` over occupied keys; it vanishes on chromosomes
without duplicated keys for that resource; and a chromosome holding exactly
two genes sharing a teacher, day and period (all else distinct) is charged
exactly 1000 by the teacher term. -/
theorem conflict_terms_spec (ind : Chromosome) :
    (penalty_teacher_conflict ind = specConflictSum (teacherKeys ind)
      ∧ penalty_room_conflict ind = specConflictSum (roomKeys ind)
      ∧ penalty_group_conflict ind = specConflictSum (groupKeys ind))
    ∧ ((teacherKeys ind).Nodup → penalty_teacher_conflict ind = 0)
    ∧ ((roomKeys ind).Nodup → penalty_room_conflict ind = 0)
    ∧ ((groupKeys ind).Nodup → penalty_group_conflict ind = 0)
    ∧ penalty_teacher_conflict
        ⟨[mkG 1 "Monday" 1 1 1 5 1, mkG 2 "Monday" 1 2 2 5 2]⟩ = 1000 := by
  refine ⟨⟨conflictPenalty_eq_spec _, conflictPenalty_eq_spec _,
    conflictPenalty_eq_spec _⟩, ?_, ?_, ?_, ?_⟩
  · exact fun h => conflictPenalty_eq_zero_of_nodup h
  · exact fun h => conflictPenalty_eq_zero_of_nodup h
  · exact fun h => conflictPenalty_eq_zero_of_nodup h
  · have h := conflictPenalty_concrete
      (teacherKeys ⟨[mkG 1 "Monday" 1 1 1 5 1, mkG 2 "Monday" 1 2 2 5 2]⟩) 2 1
      (by decide) (by decide)
    rw [show penalty_teacher_conflict
        ⟨[mkG 1 "Monday" 1 1 1 5 1, mkG 2 "Monday" 1 2 2 5 2]⟩ =
      conflictPenalty
        (teacherKeys ⟨[mkG 1 "Monday" 1 1 1 5 1, mkG 2 "Monday" 1 2 2 5 2]⟩) from rfl]
    rw [h]
    norm_num

/-- Witness for C4 at concrete chromosomes. -/
theorem conflict_terms_spec_witness :
    (teacherKeys ⟨[mkG 1 "Monday" 1 1 1 1 1, mkG 2 "Tuesday" 2 2 2 2 2]⟩).Nodup
    ∧ penalty_teacher_conflict ⟨[mkG 1 "Monday" 1 1 1 1 1, mkG 2 "Tuesday" 2 2 2 2 2]⟩ = 0
    ∧ penalty_teacher_conflict
        ⟨[mkG 1 "Monday" 1 1 1 5 1, mkG 2 "Monday" 1 2 2 5 2]⟩ = 1000 :=
  ⟨by decide,
    (conflict_terms_spec ⟨[mkG 1 "Monday" 1 1 1 1 1, mkG 2 "Tuesday" 2 2 2 2 2]⟩).2.1
      (by decide),
    (conflict_terms_spec ⟨[mkG 1 "Monday" 1 1 1 1 1]⟩).2.2.2.2⟩

theorem sum_map_ite_zero_one {α : Type} (l : List α) (p : α → Prop)
    [DecidablePred p] :
    (l.map (fun a => if p a then (0 : ℚ) else 1)).sum =
      ((l.filter (fun a => ¬ p a)).length : ℚ) := by
  induction l with
  | nil => simp
  | cons a t ih =>
    by_cases h : p a
    · simp [List.filter_cons, h, ih]
    · simp [List.filter_cons, h, ih]
      ring

/-- C8: the teacher-time-preference penalty counts exactly the genes whose
`(day, period)` is missing from the assigned teacher's preference list, and
a teacher id matching no catalog entry yields the empty preference list
(hence such genes are always counted). -/
theorem teacher_time_preference_spec (ind : Chromosome) (teachers : List Teacher) :
    penalty_teacher_time_preference ind teachers =
      ((ind.genes.filter (fun g =>
        (g.day, g.period) ∉ prefOf teachers g.teacher_id)).length : ℚ)
    ∧ ∀ g : Gene, (∀ t ∈ teachers, t.teacher_id ≠ g.teacher_id) →
        prefOf teachers g.teacher_id = [] := by
  constructor
  · exact sum_map_ite_zero_one ind.genes
      (fun g => (g.day, g.period) ∈ prefOf teachers g.teacher_id)
  · intro g h
    unfold prefOf
    rw [List.find?_eq_none.2 (fun t ht => by simpa using h t ht)]

/-- Witness for C8: a gene with an unknown teacher id is penalized. -/
theorem teacher_time_preference_spec_witness :
    penalty_teacher_time_preference ⟨[mkG 1 "Monday" 1 1 1 99 1]⟩
      [{ teacher_id := 5, name := "T5", preferred_times := [("Monday", 1)] }] = 1
    ∧ prefOf [{ teacher_id := 5, name := "T5", preferred_times := [("Monday", 1)] }]
        99 = [] := by
  have h := teacher_time_preference_spec ⟨[mkG 1 "Monday" 1 1 1 99 1]⟩
    [{ teacher_id := 5, name := "T5", preferred_times := [("Monday", 1)] }]
  refine ⟨h.1.trans ?_, h.2 (mkG 1 "Monday" 1 1 1 99 1) (by decide)⟩
  have hlen : ((⟨[mkG 1 "Monday" 1 1 1 99 1]⟩ : Chromosome).genes.filter (fun g =>
      (g.day, g.period) ∉ prefOf
        [{ teacher_id := 5, name := "T5", preferred_times := [("Monday", 1)] }]
        g.teacher_id)).length = 1 := by decide
  exact_mod_cast hlen

/-- C7: gene construction fails exactly when `period < 1` or the day is
outside the weekday set; on every other input it succeeds and stores the
given field values unchanged. -/
theorem mkGene_spec (gid : Int) (day : String) (period tsid cid tid rid : Int)
    (fx : Bool) :
    ((mkGene gid day period tsid cid tid rid fx).isOk = false
      ↔ (period < 1 ∨ day ∉ validDays))
    ∧ ((mkGene gid day period tsid cid tid rid fx).isOk = true →
        mkGene gid day period tsid cid tid rid fx = Except.ok
          { group_id := gid, day := day, period := period, timeslot_id := tsid,
            course_id := cid, teacher_id := tid, room_id := rid, is_fixed := fx }) := by
  unfold mkGene
  by_cases h1 : period < 1
  · simp [h1, Except.isOk, Except.toBool]
  · by_cases h2 : day ∈ validDays
    · simp [h1, h2, Except.isOk, Except.toBool]
    · simp [h1, h2, Except.isOk, Except.toBool]

/-- Witness for C7: a valid gene is stored as given, an invalid day is
rejected. -/
theorem mkGene_spec_witness :
    ((mkGene 7 "Funday" 2 3 4 5 6 true).isOk = false)
    ∧ mkGene 7 "Monday" 2 3 4 5 6 true = Except.ok
        { group_id := 7, day := "Monday", period := 2, timeslot_id := 3,
          course_id := 4, teacher_id := 5, room_id := 6, is_fixed := true } :=
  ⟨(mkGene_spec 7 "Funday" 2 3 4 5 6 true).1.mpr (by decide),
    (mkGene_spec 7 "Monday" 2 3 4 5 6 true).2 (by decide)⟩

/-- C5: crossover on a first parent shorter than two genes returns both
inputs unchanged; otherwise it exchanges the suffixes from a cut point in
`[1, length − 1]`; in every case the total gene count is preserved. -/
theorem crossover_spec (ind1 ind2 : Chromosome) (r : Nat) :
    (ind1.genes.length < 2 → crossover ind1 ind2 r = (ind1, ind2))
    ∧ (2 ≤ ind1.genes.length → ∃ c, 1 ≤ c ∧ c ≤ ind1.genes.length - 1 ∧
        crossover ind1 ind2 r =
          (⟨ind1.genes.take c ++ ind2.genes.drop c⟩,
            ⟨ind2.genes.take c ++ ind1.genes.drop c⟩))
    ∧ (crossover ind1 ind2 r).1.genes.length +
        (crossover ind1 ind2 r).2.genes.length =
        ind1.genes.length + ind2.genes.length := by
  refine ⟨?_, ?_, ?_⟩
  · intro h
    unfold crossover
    rw [if_pos h]
  · intro h
    refine ⟨1 + r % (ind1.genes.length - 1), by omega, ?_, ?_⟩
    · have := Nat.mod_lt r (show 0 < ind1.genes.length - 1 by omega)
      omega
    · unfold crossover
      rw [if_neg (by omega)]
  · unfold crossover
    by_cases h : ind1.genes.length < 2
    · rw [if_pos h]
    · rw [if_neg h]
      simp only [List.length_append, List.length_take, List.length_drop]
      have hc : 1 + r % (ind1.genes.length - 1) ≤ ind1.genes.length - 1 := by
        have := Nat.mod_lt r (show 0 < ind1.genes.length - 1 by omega)
        omega
      omega

/-- Witness for C5 at concrete parents of lengths 2 and 1. -/
theorem crossover_spec_witness :
    crossover ⟨[mkG 1 "Monday" 1 1 1 1 1]⟩ ⟨[mkG 2 "Monday" 1 1 2 2 2]⟩ 5 =
      (⟨[mkG 1 "Monday" 1 1 1 1 1]⟩, ⟨[mkG 2 "Monday" 1 1 2 2 2]⟩)
    ∧ (crossover ⟨[mkG 1 "Monday" 1 1 1 1 1, mkG 1 "Tuesday" 1 2 1 1 1]⟩
        ⟨[mkG 2 "Monday" 1 1 2 2 2]⟩ 0).1.genes.length +
      (crossover ⟨[mkG 1 "Monday" 1 1 1 1 1, mkG 1 "Tuesday" 1 2 1 1 1]⟩
        ⟨[mkG 2 "Monday" 1 1 2 2 2]⟩ 0).2.genes.length = 3 :=
  ⟨(crossover_spec ⟨[mkG 1 "Monday" 1 1 1 1 1]⟩ ⟨[mkG 2 "Monday" 1 1 2 2 2]⟩ 5).1
      (by decide),
    (crossover_spec ⟨[mkG 1 "Monday" 1 1 1 1 1, mkG 1 "Tuesday" 1 2 1 1 1]⟩
      ⟨[mkG 2 "Monday" 1 1 2 2 2]⟩ 0).2.2⟩

/-- The day produced by sub-mutation (d) when the draw index is
`c.dayIdx`. -/
def chosenDay (c : MutChoice) : String :=
  mutationDays.getD (c.dayIdx % mutationDays.length) ""

/-- The period produced by sub-mutation (d) when the draw index is
`c.periodIdx`. -/
def chosenPeriod (c : MutChoice) : Int :=
  mutationPeriods.getD (c.periodIdx % mutationPeriods.length) 0

theorem chooseFrom_eq_getD {α : Type} [Inhabited α] (l : List α) (d : α) (i : Nat)
    (h : l ≠ []) : chooseFrom l i = some (l.getD (i % l.length) d) := by
  have hlen : 0 < l.length := List.length_pos.2 h
  have hm : i % l.length < l.length := Nat.mod_lt _ hlen
  unfold chooseFrom
  rw [List.getD_eq_getElem?_getD, List.get?_eq_getElem?, List.getElem?_eq_getElem hm]
  rfl

theorem getD_mem {α : Type} (l : List α) (d : α) (i : Nat) (h : i < l.length) :
    l.getD i d ∈ l := by
  rw [List.getD_eq_getElem?_getD, List.getElem?_eq_getElem h]
  exact List.getElem_mem h

/-- C3 (amended): when sub-mutation (d) fires, the new day is drawn from
the hard-coded five-weekday list and the new period from the hard-coded
list `[1, 2, 3]` (not from the configured `PERIODS_PER_DAY`); the gene's
`timeslot_id` is set to the catalog slot found for the new `(day, period)`
by the `timeslot_map` lookup, and the lookup failing is exactly the case
in which the `KeyError` (a `LookupError`) is raised. -/
theorem mutation_time_submutation (timeslots : List TimeSlot) (c : MutChoice)
    (g : Gene) (hD : c.doTime = true) :
    chooseFrom mutationDays c.dayIdx = some (chosenDay c)
    ∧ chooseFrom mutationPeriods c.periodIdx = some (chosenPeriod c)
    ∧ chosenDay c ∈ mutationDays
    ∧ chosenPeriod c ∈ mutationPeriods
    ∧ (∀ sid, timeslotLookup timeslots (chosenDay c, chosenPeriod c) = some sid →
        mutTime timeslots c g =
          Except.ok { g with day := chosenDay c, period := chosenPeriod c, timeslot_id := sid })
    ∧ (timeslotLookup timeslots (chosenDay c, chosenPeriod c) = none →
        mutTime timeslots c g = Except.error "KeyError") := by
  have hday : chooseFrom mutationDays c.dayIdx = some (chosenDay c) :=
    chooseFrom_eq_getD mutationDays "" c.dayIdx (by decide)
  have hper : chooseFrom mutationPeriods c.periodIdx = some (chosenPeriod c) :=
    chooseFrom_eq_getD mutationPeriods 0 c.periodIdx (by decide)
  have hdm : chosenDay c ∈ mutationDays :=
    getD_mem mutationDays "" _ (Nat.mod_lt _ (by decide))
  have hpm : chosenPeriod c ∈ mutationPeriods :=
    getD_mem mutationPeriods 0 _ (Nat.mod_lt _ (by decide))
  refine ⟨hday, hper, hdm, hpm, ?_, ?_⟩
  · intro sid hsid
    unfold mutTime
    rw [hD]
    rw [if_pos rfl, hday, hper]
    dsimp only
    rw [hsid]
  · intro hnone
    unfold mutTime
    rw [hD]
    rw [if_pos rfl, hday, hper]
    dsimp only
    rw [hnone]

/-- Witness for C3 at a concrete catalog, gene and draw: draw index 5
lands on period 3, and an empty catalog raises the `KeyError`. -/
theorem mutation_time_submutation_witness :
    mutTime [⟨3, "Monday", 3⟩]
      { doTime := true, dayIdx := 0, periodIdx := 5 }
      (mkG 1 "Tuesday" 1 1 1 1 1)
      = Except.ok (mkG 1 "Monday" 3 3 1 1 1)
    ∧ mutTime ([] : List TimeSlot)
        { doTime := true, dayIdx := 0, periodIdx := 5 }
        (mkG 1 "Tuesday" 1 1 1 1 1) = Except.error "KeyError" := by
  obtain ⟨-, -, -, -, hok, -⟩ := mutation_time_submutation [⟨3, "Monday", 3⟩]
    { doTime := true, dayIdx := 0, periodIdx := 5 } (mkG 1 "Tuesday" 1 1 1 1 1) rfl
  obtain ⟨-, -, -, -, -, herr⟩ := mutation_time_submutation ([] : List TimeSlot)
    { doTime := true, dayIdx := 0, periodIdx := 5 } (mkG 1 "Tuesday" 1 1 1 1 1) rfl
  constructor
  · rw [hok 3 (by decide)]
    rw [show chosenDay { doTime := true, dayIdx := 0, periodIdx := 5 } = "Monday"
      from by decide]
    rw [show chosenPeriod { doTime := true, dayIdx := 0, periodIdx := 5 } = 3
      from by decide]
    rfl
  · exact herr (by decide)

/-- C3 (counterexample): the period domain used by sub-mutation (d) is the
hard-coded `[1, 2, 3]`, not the configured `PERIODS_PER_DAY = [1..6]`: the
configured set contains 6 but no draw of the sub-mutation can produce it —
draw index 5, which selects 6 from the configured list, yields 3. -/
theorem mutation_period_domain_cex :
    mutationPeriods ≠ SchedulingConfig.PERIODS_PER_DAY
    ∧ (6 : Int) ∈ SchedulingConfig.PERIODS_PER_DAY
    ∧ (6 : Int) ∉ mutationPeriods
    ∧ SchedulingConfig.PERIODS_PER_DAY.getD
        (5 % SchedulingConfig.PERIODS_PER_DAY.length) 0 = 6
    ∧ chosenPeriod { doTime := true, dayIdx := 0, periodIdx := 5 } = 3
    ∧ mutationDays = SchedulingConfig.DAYS_OF_WEEK := by decide

theorem except_bind_ok {α β : Type} (x : Except String α)
    (f : α → Except String β) (b : β) (h : (x >>= f) = Except.ok b) :
    ∃ a, x = Except.ok a ∧ f a = Except.ok b := by
  cases x with
  | error e => simp [Bind.bind, Except.bind] at h
  | ok a => exact ⟨a, rfl, by simpa [Bind.bind, Except.bind] using h⟩

theorem mutTeacher_frame {teachers : List Teacher} {c : MutChoice} {g g2 : Gene}
    (h : mutTeacher teachers c g = Except.ok g2) :
    g2.group_id = g.group_id ∧ g2.is_fixed = g.is_fixed := by
  unfold mutTeacher at h
  split at h
  · cases hc : chooseFrom teachers c.teacherIdx with
    | some t =>
      rw [hc] at h
      cases h
      exact ⟨rfl, rfl⟩
    | none =>
      rw [hc] at h
      simp at h
  · cases h
    exact ⟨rfl, rfl⟩

theorem mutCourse_frame {courses : List Course} {c : MutChoice} {g g2 : Gene}
    (h : mutCourse courses c g = Except.ok g2) :
    g2.group_id = g.group_id ∧ g2.is_fixed = g.is_fixed := by
  unfold mutCourse at h
  split at h
  · cases hc : chooseFrom courses c.courseIdx with
    | some t =>
      rw [hc] at h
      cases h
      exact ⟨rfl, rfl⟩
    | none =>
      rw [hc] at h
      simp at h
  · cases h
    exact ⟨rfl, rfl⟩

theorem mutRoom_frame {rooms : List Room} {c : MutChoice} {g g2 : Gene}
    (h : mutRoom rooms c g = Except.ok g2) :
    g2.group_id = g.group_id ∧ g2.is_fixed = g.is_fixed := by
  unfold mutRoom at h
  split at h
  · cases hc : chooseFrom rooms c.roomIdx with
    | some t =>
      rw [hc] at h
      cases h
      exact ⟨rfl, rfl⟩
    | none =>
      rw [hc] at h
      simp at h
  · cases h
    exact ⟨rfl, rfl⟩

theorem mutTime_frame {timeslots : List TimeSlot} {c : MutChoice} {g g2 : Gene}
    (h : mutTime timeslots c g = Except.ok g2) :
    g2.group_id = g.group_id ∧ g2.is_fixed = g.is_fixed := by
  unfold mutTime at h
  split at h
  · split at h
    · split at h
      · cases h
        exact ⟨rfl, rfl⟩
      · simp at h
    · simp at h
  · cases h
    exact ⟨rfl, rfl⟩

theorem mutGene_frame {teachers : List Teacher} {rooms : List Room}
    {courses : List Course} {timeslots : List TimeSlot} {c : MutChoice} {g g2 : Gene}
    (h : mutGene teachers rooms courses timeslots c g = Except.ok g2) :
    g2.group_id = g.group_id ∧ g2.is_fixed = g.is_fixed := by
  unfold mutGene at h
  obtain ⟨a1, h1, h⟩ := except_bind_ok _ _ _ h
  obtain ⟨a2, h2, h⟩ := except_bind_ok _ _ _ h
  obtain ⟨a3, h3, h⟩ := except_bind_ok _ _ _ h
  have f1 := mutTeacher_frame h1
  have f2 := mutCourse_frame h2
  have f3 := mutRoom_frame h3
  have f4 := mutTime_frame h
  exact ⟨by rw [f4.1, f3.1, f2.1, f1.1], by rw [f4.2, f3.2, f2.2, f1.2]⟩

theorem mutGenes_frame (teachers : List Teacher) (rooms : List Room)
    (courses : List Course) (timeslots : List TimeSlot) (cs : Nat → MutChoice) :
    ∀ (gs : List Gene) (i : Nat) (gs2 : List Gene),
      mutGenes teachers rooms courses timeslots cs i gs = Except.ok gs2 →
      gs2.length = gs.length
      ∧ gs2.map Gene.group_id = gs.map Gene.group_id
      ∧ gs2.map Gene.is_fixed = gs.map Gene.is_fixed := by
  intro gs
  induction gs with
  | nil =>
    intro i gs2 h
    unfold mutGenes at h
    cases h
    exact ⟨rfl, rfl, rfl⟩
  | cons g t ih =>
    intro i gs2 h
    unfold mutGenes at h
    obtain ⟨g2, hg, h⟩ := except_bind_ok _ _ _ h
    obtain ⟨rest, hrest, h⟩ := except_bind_ok _ _ _ h
    cases h
    have hf := mutGene_frame hg
    have ht := ih (i + 1) rest hrest
    refine ⟨?_, ?_, ?_⟩
    · simp [ht.1]
    · simp [hf.1, ht.2.1]
    · simp [hf.2, ht.2.2]

/-- C9: a successful mutation never changes the chromosome's length, and
leaves every gene's `group_id` and `is_fixed` flag unchanged (only teacher,
course, room, day, period and timeslot assignments can be modified). -/
theorem mutation_frame (ind : Chromosome) (teachers : List Teacher)
    (rooms : List Room) (courses : List Course) (timeslots : List TimeSlot)
    (cs : Nat → MutChoice) (c2 : Chromosome)
    (h : mutation ind teachers rooms courses timeslots cs = Except.ok c2) :
    c2.genes.length = ind.genes.length
    ∧ c2.genes.map Gene.group_id = ind.genes.map Gene.group_id
    ∧ c2.genes.map Gene.is_fixed = ind.genes.map Gene.is_fixed := by
  unfold mutation at h
  obtain ⟨gs2, hgs, h⟩ := except_bind_ok _ _ _ h
  cases h
  exact mutGenes_frame teachers rooms courses timeslots cs ind.genes 0 gs2 hgs

/-- Witness for C9: a mutation that rewrites a gene's teacher, room and
time still preserves length, `group_id` and `is_fixed`. -/
theorem mutation_frame_witness :
    (⟨[mkG 9 "Monday" 3 3 1 2 2]⟩ : Chromosome).genes.length =
      (⟨[mkG 9 "Tuesday" 1 1 1 1 1]⟩ : Chromosome).genes.length
    ∧ (⟨[mkG 9 "Monday" 3 3 1 2 2]⟩ : Chromosome).genes.map Gene.group_id =
      (⟨[mkG 9 "Tuesday" 1 1 1 1 1]⟩ : Chromosome).genes.map Gene.group_id
    ∧ (⟨[mkG 9 "Monday" 3 3 1 2 2]⟩ : Chromosome).genes.map Gene.is_fixed =
      (⟨[mkG 9 "Tuesday" 1 1 1 1 1]⟩ : Chromosome).genes.map Gene.is_fixed :=
  mutation_frame ⟨[mkG 9 "Tuesday" 1 1 1 1 1]⟩
    [{ teacher_id := 2, name := "T2", preferred_times := [] }]
    [{ room_id := 2, name := "R2" }] [] [⟨3, "Monday", 3⟩]
    (fun _ => { doTeacher := true, doRoom := true, doTime := true, periodIdx := 2 })
    ⟨[mkG 9 "Monday" 3 3 1 2 2]⟩ (by rfl)

/-!
Repair-pass lemmas
-/

theorem runPass_length {σ : Type} (step : σ → Gene → σ × Gene) :
    ∀ (gs : List Gene) (st : σ), (runPass step st gs).2.length = gs.length := by
  intro gs
  induction gs with
  | nil => intro st; rfl
  | cons g t ih =>
    intro st
    unfold runPass
    simp [ih]

theorem runPass_map_eq {σ β : Type} (step : σ → Gene → σ × Gene) (f : Gene → β)
    (hstep : ∀ st g, f ((step st g).2) = f g) :
    ∀ (gs : List Gene) (st : σ), ((runPass step st gs).2.map f) = gs.map f := by
  intro gs
  induction gs with
  | nil => intro st; rfl
  | cons g t ih =>
    intro st
    unfold runPass
    simp [ih, hstep]

theorem runPass_pointwise {σ : Type} (step : σ → Gene → σ × Gene)
    (P : Gene → Gene → Prop) (hstep : ∀ st g, P g (step st g).2) :
    ∀ (gs : List Gene) (st : σ) (i : Nat) (g1 g2 : Gene),
      gs.get? i = some g1 → (runPass step st gs).2.get? i = some g2 → P g1 g2 := by
  intro gs
  induction gs with
  | nil => intro st i g1 g2 h1 _; simp at h1
  | cons g t ih =>
    intro st i g1 g2 h1 h2
    unfold runPass at h2
    dsimp only at h2
    cases i with
    | zero =>
      rw [List.get?_cons_zero] at h1 h2
      injection h1 with h1
      injection h2 with h2
      subst h1
      rw [← h2]
      exact hstep st g
    | succ n =>
      rw [List.get?_cons_succ] at h1 h2
      exact ih _ n g1 g2 h1 h2

theorem stepTeacher_shape (teachers : List Teacher) (st : RState) (g : Gene) :
    ∃ tid, (stepTeacher teachers st g).2 = { g with teacher_id := tid } := by
  unfold stepTeacher
  dsimp only
  split
  · split
    · exact ⟨g.teacher_id, rfl⟩
    · exact ⟨_, rfl⟩
  · exact ⟨g.teacher_id, rfl⟩

theorem stepRoom_shape (rooms : List Room) (st : RState) (g : Gene) :
    ∃ rid, (stepRoom rooms st g).2 = { g with room_id := rid } := by
  unfold stepRoom
  dsimp only
  split
  · split
    · exact ⟨g.room_id, rfl⟩
    · exact ⟨_, rfl⟩
  · exact ⟨g.room_id, rfl⟩

theorem stepGroup_shape (rng : Nat → Nat) (st : Nat × List (Int × String × Int))
    (g : Gene) : ∃ cid, (stepGroup rng st g).2 = { g with course_id := cid } := by
  unfold stepGroup
  dsimp only
  split
  · exact ⟨_, rfl⟩
  · exact ⟨g.course_id, rfl⟩

/-- The state update shared by both conflict passes when the gene's
resource is not yet recorded for its `(day, period)` slot. -/
def schedAppend (st : RState) (key : String × Int) (v : Int) : RState :=
  { st with sched := fun k => if k = key then st.sched key ++ [v] else st.sched k }

theorem stepTeacher_no_conflict (teachers : List Teacher) (st : RState) (g : Gene)
    (h : g.teacher_id ∉ st.sched (g.day, g.period)) :
    stepTeacher teachers st g =
      (schedAppend st (g.day, g.period) g.teacher_id, g) := by
  unfold stepTeacher schedAppend
  dsimp only
  rw [if_neg h]

theorem stepRoom_no_conflict (rooms : List Room) (st : RState) (g : Gene)
    (h : g.room_id ∉ st.sched (g.day, g.period)) :
    stepRoom rooms st g =
      (schedAppend st (g.day, g.period) g.room_id, g) := by
  unfold stepRoom schedAppend
  dsimp only
  rw [if_neg h]

/-- A conflict-resolution pass whose step, on a conflict-free gene, merely
records the gene's resource id, is the identity on a chromosome whose
`(resource, day, period)` keys are pairwise distinct. -/
theorem runPass_id_of (step : RState → Gene → RState × Gene) (rid : Gene → Int)
    (hstep : ∀ st g, rid g ∉ st.sched (g.day, g.period) →
      step st g = (schedAppend st (g.day, g.period) (rid g), g)) :
    ∀ (gs : List Gene) (st : RState),
      (gs.map (fun g => (rid g, g.day, g.period))).Nodup →
      (∀ g ∈ gs, rid g ∉ st.sched (g.day, g.period)) →
      (runPass step st gs).2 = gs := by
  intro gs
  induction gs with
  | nil => intro st _ _; rfl
  | cons g t ih =>
    intro st hnd hst
    have hg : rid g ∉ st.sched (g.day, g.period) := hst g (List.mem_cons_self g t)
    have hs := hstep st g hg
    unfold runPass
    rw [hs]
    dsimp only
    rw [List.map_cons, List.nodup_cons] at hnd
    have htail : ∀ g2 ∈ t, rid g2 ∉
        (schedAppend st (g.day, g.period) (rid g)).sched (g2.day, g2.period) := by
      intro g2 hg2
      unfold schedAppend
      dsimp only
      by_cases hk : ((g2.day, g2.period) : String × Int) = (g.day, g.period)
      · rw [if_pos hk]
        intro hmem
        rcases List.mem_append.1 hmem with hold | hnew
        · have := hst g2 (List.mem_cons_of_mem g hg2)
          rw [hk] at this
          exact this hold
        · have heq : rid g2 = rid g := by simpa using hnew
          have hd : g2.day = g.day := congrArg Prod.fst hk
          have hp : g2.period = g.period := congrArg Prod.snd hk
          apply hnd.1
          have hkey : (rid g2, g2.day, g2.period) = (rid g, g.day, g.period) := by
            rw [heq, hd, hp]
          rw [← hkey]
          exact List.mem_map_of_mem _ hg2
      · rw [if_neg hk]
        exact hst g2 (List.mem_cons_of_mem g hg2)
    rw [ih _ hnd.2 htail]

theorem resolveTeacherConflicts_id (teachers : List Teacher) (ind : Chromosome)
    (h : (teacherKeys ind).Nodup) :
    (resolveTeacherConflicts teachers ind).genes = ind.genes := by
  unfold resolveTeacherConflicts
  exact runPass_id_of (stepTeacher teachers) Gene.teacher_id
    (fun st g hg => stepTeacher_no_conflict teachers st g hg) ind.genes RState.init
    h (fun g _ => by simp [RState.init])

theorem resolveRoomConflicts_id (rooms : List Room) (ind : Chromosome)
    (h : (roomKeys ind).Nodup) :
    (resolveRoomConflicts rooms ind).genes = ind.genes := by
  unfold resolveRoomConflicts
  exact runPass_id_of (stepRoom rooms) Gene.room_id
    (fun st g hg => stepRoom_no_conflict rooms st g hg) ind.genes RState.init
    h (fun g _ => by simp [RState.init])

theorem stepGroup_keeps (rng : Nat → Nat) (st : Nat × List (Int × String × Int))
    (g : Gene) :
    ((stepGroup rng st g).2).group_id = g.group_id
    ∧ ((stepGroup rng st g).2).day = g.day
    ∧ ((stepGroup rng st g).2).period = g.period
    ∧ ((stepGroup rng st g).2).timeslot_id = g.timeslot_id
    ∧ ((stepGroup rng st g).2).teacher_id = g.teacher_id
    ∧ ((stepGroup rng st g).2).room_id = g.room_id
    ∧ ((stepGroup rng st g).2).is_fixed = g.is_fixed := by
  obtain ⟨cid, hc⟩ := stepGroup_shape rng st g
  rw [hc]
  exact ⟨rfl, rfl, rfl, rfl, rfl, rfl, rfl⟩

/-- Frame helper: repair on a chromosome whose teacher and room keys are
duplicate-free keeps every teacher and room assignment, and keeps the
teacher- and room-key lists themselves. -/
theorem repair_frame_maps (ind : Chromosome) (teachers : List Teacher)
    (rooms : List Room) (rng : Nat → Nat)
    (hT : (teacherKeys ind).Nodup) (hR : (roomKeys ind).Nodup) :
    (repair_timetable ind teachers rooms rng).genes.map Gene.teacher_id =
      ind.genes.map Gene.teacher_id
    ∧ (repair_timetable ind teachers rooms rng).genes.map Gene.room_id =
      ind.genes.map Gene.room_id
    ∧ teacherKeys (repair_timetable ind teachers rooms rng) = teacherKeys ind
    ∧ roomKeys (repair_timetable ind teachers rooms rng) = roomKeys ind := by
  unfold repair_timetable
  have h1 : (resolveTeacherConflicts teachers ind).genes = ind.genes :=
    resolveTeacherConflicts_id teachers ind hT
  have hR2 : (roomKeys (resolveTeacherConflicts teachers ind)).Nodup := by
    unfold roomKeys
    rw [h1]
    exact hR
  have h2 : (resolveRoomConflicts rooms (resolveTeacherConflicts teachers ind)).genes
      = (resolveTeacherConflicts teachers ind).genes :=
    resolveRoomConflicts_id rooms _ hR2
  have hgt : ∀ (c : Chromosome), (resolveGroupConflicts rng c).genes.map Gene.teacher_id
      = c.genes.map Gene.teacher_id := fun c =>
    runPass_map_eq (stepGroup rng) Gene.teacher_id
      (fun st g => (stepGroup_keeps rng st g).2.2.2.2.1) c.genes (0, [])
  have hgr : ∀ (c : Chromosome), (resolveGroupConflicts rng c).genes.map Gene.room_id
      = c.genes.map Gene.room_id := fun c =>
    runPass_map_eq (stepGroup rng) Gene.room_id
      (fun st g => (stepGroup_keeps rng st g).2.2.2.2.2.1) c.genes (0, [])
  have hgtk : ∀ (c : Chromosome), teacherKeys (resolveGroupConflicts rng c)
      = teacherKeys c := by
    intro c
    unfold teacherKeys
    exact runPass_map_eq (stepGroup rng) (fun g => (g.teacher_id, g.day, g.period))
      (fun st g => by
        have hk := stepGroup_keeps rng st g
        rw [show (fun g : Gene => (g.teacher_id, g.day, g.period))
            ((stepGroup rng st g).2) =
          (((stepGroup rng st g).2).teacher_id, ((stepGroup rng st g).2).day,
            ((stepGroup rng st g).2).period) from rfl]
        rw [hk.2.2.2.2.1, hk.2.1, hk.2.2.1]) c.genes (0, [])
  have hgrk : ∀ (c : Chromosome), roomKeys (resolveGroupConflicts rng c)
      = roomKeys c := by
    intro c
    unfold roomKeys
    exact runPass_map_eq (stepGroup rng) (fun g => (g.room_id, g.day, g.period))
      (fun st g => by
        have hk := stepGroup_keeps rng st g
        rw [show (fun g : Gene => (g.room_id, g.day, g.period))
            ((stepGroup rng st g).2) =
          (((stepGroup rng st g).2).room_id, ((stepGroup rng st g).2).day,
            ((stepGroup rng st g).2).period) from rfl]
        rw [hk.2.2.2.2.2.1, hk.2.1, hk.2.2.1]) c.genes (0, [])
  refine ⟨?_, ?_, ?_, ?_⟩
  · rw [hgt, h2, h1]
  · rw [hgr, h2, h1]
  · rw [hgtk]
    unfold teacherKeys
    rw [h2, h1]
  · rw [hgrk]
    unfold roomKeys
    rw [h2, h1]

/-- C6: on a chromosome without duplicate `(teacher, day, period)` or
`(room, day, period)` keys, repair leaves every teacher and room
assignment unchanged, and a second repair (with any randomness) again
changes no teacher or room assignment. -/
theorem repair_idempotent (ind : Chromosome) (teachers : List Teacher)
    (rooms : List Room) (rng : Nat → Nat)
    (hT : (teacherKeys ind).Nodup) (hR : (roomKeys ind).Nodup) :
    (repair_timetable ind teachers rooms rng).genes.map Gene.teacher_id =
      ind.genes.map Gene.teacher_id
    ∧ (repair_timetable ind teachers rooms rng).genes.map Gene.room_id =
      ind.genes.map Gene.room_id
    ∧ ∀ rng2 : Nat → Nat,
        (repair_timetable (repair_timetable ind teachers rooms rng)
          teachers rooms rng2).genes.map Gene.teacher_id =
          (repair_timetable ind teachers rooms rng).genes.map Gene.teacher_id
        ∧ (repair_timetable (repair_timetable ind teachers rooms rng)
            teachers rooms rng2).genes.map Gene.room_id =
          (repair_timetable ind teachers rooms rng).genes.map Gene.room_id := by
  have m := repair_frame_maps ind teachers rooms rng hT hR
  refine ⟨m.1, m.2.1, ?_⟩
  intro rng2
  have hT2 : (teacherKeys (repair_timetable ind teachers rooms rng)).Nodup := by
    rw [m.2.2.1]
    exact hT
  have hR2 : (roomKeys (repair_timetable ind teachers rooms rng)).Nodup := by
    rw [m.2.2.2]
    exact hR
  have m2 := repair_frame_maps (repair_timetable ind teachers rooms rng)
    teachers rooms rng2 hT2 hR2
  exact ⟨m2.1, m2.2.1⟩

/-- Witness for C6 at a concrete conflict-free chromosome. -/
theorem repair_idempotent_witness :
    (repair_timetable ⟨[mkG 1 "Monday" 1 1 1 1 1, mkG 2 "Monday" 2 2 2 2 2]⟩
      [{ teacher_id := 1, name := "T1", preferred_times := [] },
        { teacher_id := 2, name := "T2", preferred_times := [] }]
      [{ room_id := 1, name := "R1" }, { room_id := 2, name := "R2" }]
      (fun _ => 0)).genes.map Gene.teacher_id =
      (⟨[mkG 1 "Monday" 1 1 1 1 1, mkG 2 "Monday" 2 2 2 2 2]⟩ :
        Chromosome).genes.map Gene.teacher_id :=
  (repair_idempotent ⟨[mkG 1 "Monday" 1 1 1 1 1, mkG 2 "Monday" 2 2 2 2 2]⟩
    [{ teacher_id := 1, name := "T1", preferred_times := [] },
      { teacher_id := 2, name := "T2", preferred_times := [] }]
    [{ room_id := 1, name := "R1" }, { room_id := 2, name := "R2" }]
    (fun _ => 0) (by decide) (by decide)).1

/-- In the group-conflict pass, a gene whose course is rewritten got a
value of `random.randint(1, 3)` and had its `(group, day, period)` key
seen before: either in the incoming `seen` set or on an earlier gene of
the pass. -/
theorem groupPass_course_spec (rng : Nat → Nat) :
    ∀ (gs : List Gene) (idx : Nat) (seen : List (Int × String × Int))
      (i : Nat) (g1 g2 : Gene),
      gs.get? i = some g1 →
      (runPass (stepGroup rng) (idx, seen) gs).2.get? i = some g2 →
      g2.course_id ≠ g1.course_id →
      (1 ≤ g2.course_id ∧ g2.course_id ≤ 3)
      ∧ ((g1.group_id, g1.day, g1.period) ∈ seen
          ∨ ∃ j g3, j < i ∧ gs.get? j = some g3
              ∧ g3.group_id = g1.group_id ∧ g3.day = g1.day
              ∧ g3.period = g1.period) := by
  intro gs
  induction gs with
  | nil =>
    intro idx seen i g1 g2 h1 _ _
    simp at h1
  | cons g t ih =>
    intro idx seen i g1 g2 h1 h2 hne
    unfold runPass at h2
    dsimp only at h2
    cases i with
    | zero =>
      rw [List.get?_cons_zero] at h1 h2
      injection h1 with h1
      injection h2 with h2
      subst h1
      unfold stepGroup at h2
      dsimp only at h2
      by_cases hk : ((g.group_id, g.day, g.period) : Int × String × Int) ∈ seen
      · rw [if_pos hk] at h2
        subst h2
        have hm : rng idx % 3 < 3 := Nat.mod_lt _ (by norm_num)
        exact ⟨⟨by simp only; omega, by simp only; omega⟩, Or.inl hk⟩
      · rw [if_neg hk] at h2
        subst h2
        exact absurd rfl hne
    | succ n =>
      rw [List.get?_cons_succ] at h1 h2
      have hstate : ∃ idx2, (stepGroup rng (idx, seen) g).1 =
          (idx2, (g.group_id, g.day, g.period) :: seen) := by
        unfold stepGroup
        dsimp only
        split
        · exact ⟨idx + 1, rfl⟩
        · exact ⟨idx, rfl⟩
      obtain ⟨idx2, hs⟩ := hstate
      rw [hs] at h2
      have hmain := ih idx2 ((g.group_id, g.day, g.period) :: seen) n g1 g2 h1 h2 hne
      refine ⟨hmain.1, ?_⟩
      rcases hmain.2 with hmem | ⟨j, g3, hj, hg3, he1, he2, he3⟩
      · rcases List.mem_cons.1 hmem with heq | hseen
        · right
          refine ⟨0, g, Nat.succ_pos n, List.get?_cons_zero, ?_, ?_, ?_⟩
          · exact (congrArg (fun p : Int × String × Int => p.1) heq).symm
          · exact (congrArg (fun p : Int × String × Int => p.2.1) heq).symm
          · exact (congrArg (fun p : Int × String × Int => p.2.2) heq).symm
        · exact Or.inl hseen
      · right
        refine ⟨j + 1, g3, Nat.succ_lt_succ hj, ?_, he1, he2, he3⟩
        rw [List.get?_cons_succ]
        exact hg3

theorem resolve_length (teachers : List Teacher) (rooms : List Room)
    (rng : Nat → Nat) (c : Chromosome) :
    (resolveTeacherConflicts teachers c).genes.length = c.genes.length
    ∧ (resolveRoomConflicts rooms c).genes.length = c.genes.length
    ∧ (resolveGroupConflicts rng c).genes.length = c.genes.length :=
  ⟨runPass_length _ c.genes _, runPass_length _ c.genes _, runPass_length _ c.genes _⟩

/-- C10: repair is total — it returns a chromosome of the same length for
every input and catalog — and it never changes a gene's `group_id`, `day`,
`period`, `timeslot_id` (or `is_fixed`); a gene whose course it does change
received a value in `1..3` from the group-conflict step, and only because
an earlier gene of the pass occupied the same `(group, day, period)` key. -/
theorem repair_total_frame (ind : Chromosome) (teachers : List Teacher)
    (rooms : List Room) (rng : Nat → Nat) :
    (repair_timetable ind teachers rooms rng).genes.length = ind.genes.length
    ∧ ∀ i g1 g2, ind.genes.get? i = some g1 →
        (repair_timetable ind teachers rooms rng).genes.get? i = some g2 →
        (g2.group_id = g1.group_id ∧ g2.day = g1.day ∧ g2.period = g1.period
          ∧ g2.timeslot_id = g1.timeslot_id ∧ g2.is_fixed = g1.is_fixed)
        ∧ (g2.course_id ≠ g1.course_id →
            (1 ≤ g2.course_id ∧ g2.course_id ≤ 3)
            ∧ ∃ j g3, j < i ∧ ind.genes.get? j = some g3
                ∧ g3.group_id = g1.group_id ∧ g3.day = g1.day
                ∧ g3.period = g1.period) := by
  have lenT : (resolveTeacherConflicts teachers ind).genes.length =
      ind.genes.length := runPass_length _ ind.genes _
  have lenR : (resolveRoomConflicts rooms
        (resolveTeacherConflicts teachers ind)).genes.length =
      (resolveTeacherConflicts teachers ind).genes.length :=
    runPass_length _ _ _
  have lenG : (repair_timetable ind teachers rooms rng).genes.length =
      (resolveRoomConflicts rooms
        (resolveTeacherConflicts teachers ind)).genes.length :=
    runPass_length _ _ _
  refine ⟨by rw [lenG, lenR, lenT], ?_⟩
  intro i g1 g2 h1 h2
  have hilt : i < ind.genes.length := (List.get?_eq_some.1 h1).1
  have hiT : i < (resolveTeacherConflicts teachers ind).genes.length := by
    rw [lenT]; exact hilt
  have hiR : i < (resolveRoomConflicts rooms
      (resolveTeacherConflicts teachers ind)).genes.length := by
    rw [lenR]; exact hiT
  set gA := (resolveTeacherConflicts teachers ind).genes.get ⟨i, hiT⟩ with hgAdef
  set gB := (resolveRoomConflicts rooms
    (resolveTeacherConflicts teachers ind)).genes.get ⟨i, hiR⟩ with hgBdef
  have hA : (resolveTeacherConflicts teachers ind).genes.get? i = some gA :=
    List.get?_eq_get hiT
  have hB : (resolveRoomConflicts rooms
      (resolveTeacherConflicts teachers ind)).genes.get? i = some gB :=
    List.get?_eq_get hiR
  have hPA : ∃ tid, gA = { g1 with teacher_id := tid } :=
    runPass_pointwise (stepTeacher teachers)
      (fun a b => ∃ tid, b = { a with teacher_id := tid })
      (fun st g => stepTeacher_shape teachers st g) ind.genes RState.init i g1 gA
      h1 hA
  have hPB : ∃ rid, gB = { gA with room_id := rid } :=
    runPass_pointwise (stepRoom rooms)
      (fun a b => ∃ rid, b = { a with room_id := rid })
      (fun st g => stepRoom_shape rooms st g) _ RState.init i gA gB hA hB
  have hPC : ∃ cid, g2 = { gB with course_id := cid } :=
    runPass_pointwise (stepGroup rng)
      (fun a b => ∃ cid, b = { a with course_id := cid })
      (fun st g => stepGroup_shape rng st g) _ (0, []) i gB g2 hB h2
  obtain ⟨tid, htid⟩ := hPA
  obtain ⟨rid, hrid⟩ := hPB
  obtain ⟨cid, hcid⟩ := hPC
  have hframe : g2.group_id = g1.group_id ∧ g2.day = g1.day
      ∧ g2.period = g1.period ∧ g2.timeslot_id = g1.timeslot_id
      ∧ g2.is_fixed = g1.is_fixed := by
    rw [hcid, hrid, htid]
    exact ⟨rfl, rfl, rfl, rfl, rfl⟩
  refine ⟨hframe, ?_⟩
  intro hne
  have hcourseB : gB.course_id = g1.course_id := by
    rw [hrid, htid]
  have hneB : g2.course_id ≠ gB.course_id := by
    rw [hcourseB]
    exact hne
  have hmain := groupPass_course_spec rng
    (resolveRoomConflicts rooms (resolveTeacherConflicts teachers ind)).genes
    0 [] i gB g2 hB h2 hneB
  refine ⟨hmain.1, ?_⟩
  rcases hmain.2 with hmem | ⟨j, g3, hj, hg3, he1, he2, he3⟩
  · simp at hmem
  · have hjlt : j < ind.genes.length := by
      have := (List.get?_eq_some.1 hg3).1
      rw [lenR, lenT] at this
      exact this
    have hjT : j < (resolveTeacherConflicts teachers ind).genes.length := by
      rw [lenT]; exact hjlt
    set g0 := ind.genes.get ⟨j, hjlt⟩ with hg0def
    set gAj := (resolveTeacherConflicts teachers ind).genes.get ⟨j, hjT⟩
    have h0 : ind.genes.get? j = some g0 := List.get?_eq_get hjlt
    have hAj : (resolveTeacherConflicts teachers ind).genes.get? j = some gAj :=
      List.get?_eq_get hjT
    have hPAj : ∃ tid2, gAj = { g0 with teacher_id := tid2 } :=
      runPass_pointwise (stepTeacher teachers)
        (fun a b => ∃ tid2, b = { a with teacher_id := tid2 })
        (fun st g => stepTeacher_shape teachers st g) ind.genes RState.init j g0 gAj
        h0 hAj
    have hPBj : ∃ rid2, g3 = { gAj with room_id := rid2 } :=
      runPass_pointwise (stepRoom rooms)
        (fun a b => ∃ rid2, b = { a with room_id := rid2 })
        (fun st g => stepRoom_shape rooms st g) _ RState.init j gAj g3 hAj hg3
    obtain ⟨tid2, ht2⟩ := hPAj
    obtain ⟨rid2, hr2⟩ := hPBj
    have hkeyB : gB.group_id = g1.group_id ∧ gB.day = g1.day
        ∧ gB.period = g1.period := by
      rw [hrid, htid]
      exact ⟨rfl, rfl, rfl⟩
    have hkey3 : g3.group_id = g0.group_id ∧ g3.day = g0.day
        ∧ g3.period = g0.period := by
      rw [hr2, ht2]
      exact ⟨rfl, rfl, rfl⟩
    refine ⟨j, g0, hj, h0, ?_, ?_, ?_⟩
    · rw [← hkey3.1, he1, hkeyB.1]
    · rw [← hkey3.2.1, he2, hkeyB.2.1]
    · rw [← hkey3.2.2, he3, hkeyB.2.2]

/-- Witness for C10: on two genes sharing a `(group, day, period)` key and
empty catalogs, repair returns a chromosome of the same length and the
second gene's rewritten course lies in 1..3. -/
theorem repair_total_frame_witness :
    (repair_timetable ⟨[mkG 1 "Monday" 1 1 9 1 1, mkG 1 "Monday" 1 1 9 2 2]⟩
      [] [] (fun _ => 0)).genes.length = 2
    ∧ 1 ≤ (mkG 1 "Monday" 1 1 1 2 2).course_id
    ∧ (mkG 1 "Monday" 1 1 1 2 2).course_id ≤ 3 := by
  have h := repair_total_frame ⟨[mkG 1 "Monday" 1 1 9 1 1, mkG 1 "Monday" 1 1 9 2 2]⟩
    [] [] (fun _ => 0)
  have hc := (h.2 1 (mkG 1 "Monday" 1 1 9 2 2) (mkG 1 "Monday" 1 1 1 2 2)
    (by decide) (by decide)).2 (by decide)
  exact ⟨h.1.trans (by decide), hc.1.1, hc.1.2⟩

/-!
The group-schedule-gap formula (claim C2)
-/

/-- The gap formula exactly as the spec sentence states it: per group and
day, `((max − min + 1) − number of DISTINCT scheduled periods) × 0.5`. -/
def specGapPenaltyDistinct (ind : Chromosome) (groups : List StudentGroup) : ℚ :=
  (groups.map (fun grp =>
    let gs := genesOfGroup ind grp.group_id
    (((gs.map Gene.day).dedup).map (fun d =>
      let periods := (gs.filter (fun g => g.day = d)).map Gene.period
      (((listMax periods - listMin periods + 1 : Int) : ℚ)
        - (periods.dedup.length : ℚ)) * (1 / 2))).sum)).sum

/-- Period list of one group on one day, genes counted with multiplicity. -/
def periodsOn (ind : Chromosome) (gid : Int) (d : String) : List Int :=
  (ind.genes.filter (fun g => g.group_id = gid ∧ g.day = d)).map Gene.period

/-- The amended spec formula: per listed group and per day on which the
group has at least one gene,
`((max − min + 1) − number of scheduled genes (period multiplicities
counted)) × 0.5`. -/
def specGapPenaltyMult (ind : Chromosome) (groups : List StudentGroup) : ℚ :=
  (groups.map (fun grp =>
    ∑ d ∈ ((genesOfGroup ind grp.group_id).map Gene.day).toFinset,
      (((listMax (periodsOn ind grp.group_id d)
            - listMin (periodsOn ind grp.group_id d) + 1 : Int) : ℚ)
        - ((ind.genes.countP
            (fun g => g.group_id = grp.group_id ∧ g.day = d) : ℚ))) * (1 / 2))).sum

theorem dayGap_eval (P : List Int) (hne : P.isEmpty = false) (a b : Int) (n : ℕ)
    (hmax : listMax P = a) (hmin : listMin P = b) (hlen : P.length = n) :
    dayGap P = ((a - b + 1 : Int) : ℚ) - (n : ℚ) := by
  unfold dayGap
  rw [if_neg (by simp [hne]), hmax, hmin, hlen]

/-- C2 (counterexample): a group scheduled twice at the same period on one
day: the code's gap term charges `(1 − 2) × 0.5 = −0.5`, while the claimed
distinct-period formula gives `(1 − 1) × 0.5 = 0`. -/
theorem group_gap_formula_cex :
    penalty_group_schedule_gap
        ⟨[mkG 1 "Monday" 2 2 1 1 1, mkG 1 "Monday" 2 2 2 2 2]⟩
        [{ group_id := 1, name := "G1" }] = -(1 / 2)
    ∧ specGapPenaltyDistinct
        ⟨[mkG 1 "Monday" 2 2 1 1 1, mkG 1 "Monday" 2 2 2 2 2]⟩
        [{ group_id := 1, name := "G1" }] = 0
    ∧ penalty_group_schedule_gap
        ⟨[mkG 1 "Monday" 2 2 1 1 1, mkG 1 "Monday" 2 2 2 2 2]⟩
        [{ group_id := 1, name := "G1" }] ≠
      specGapPenaltyDistinct
        ⟨[mkG 1 "Monday" 2 2 1 1 1, mkG 1 "Monday" 2 2 2 2 2]⟩
        [{ group_id := 1, name := "G1" }] := by
  have h1 : penalty_group_schedule_gap
      ⟨[mkG 1 "Monday" 2 2 1 1 1, mkG 1 "Monday" 2 2 2 2 2]⟩
      [{ group_id := 1, name := "G1" }] = -(1 / 2) := by
    unfold penalty_group_schedule_gap
    simp only [List.map_cons, List.map_nil, List.sum_cons, List.sum_nil]
    rw [show genesOfGroup ⟨[mkG 1 "Monday" 2 2 1 1 1, mkG 1 "Monday" 2 2 2 2 2]⟩
        (({ group_id := 1, name := "G1" } : StudentGroup).group_id) =
      [mkG 1 "Monday" 2 2 1 1 1, mkG 1 "Monday" 2 2 2 2 2] from by decide]
    rw [show (([mkG 1 "Monday" 2 2 1 1 1, mkG 1 "Monday" 2 2 2 2 2].map
        Gene.day).dedup) = ["Monday"] from by decide]
    simp only [List.map_cons, List.map_nil, List.sum_cons, List.sum_nil]
    rw [show ([mkG 1 "Monday" 2 2 1 1 1, mkG 1 "Monday" 2 2 2 2 2].filter
        (fun g => g.day = "Monday")).map Gene.period = [2, 2] from by decide]
    rw [dayGap_eval [2, 2] (by decide) 2 2 2 (by decide) (by decide) (by decide)]
    norm_num
  have h2 : specGapPenaltyDistinct
      ⟨[mkG 1 "Monday" 2 2 1 1 1, mkG 1 "Monday" 2 2 2 2 2]⟩
      [{ group_id := 1, name := "G1" }] = 0 := by
    unfold specGapPenaltyDistinct
    simp only [List.map_cons, List.map_nil, List.sum_cons, List.sum_nil]
    rw [show genesOfGroup ⟨[mkG 1 "Monday" 2 2 1 1 1, mkG 1 "Monday" 2 2 2 2 2]⟩
        (({ group_id := 1, name := "G1" } : StudentGroup).group_id) =
      [mkG 1 "Monday" 2 2 1 1 1, mkG 1 "Monday" 2 2 2 2 2] from by decide]
    rw [show (([mkG 1 "Monday" 2 2 1 1 1, mkG 1 "Monday" 2 2 2 2 2].map
        Gene.day).dedup) = ["Monday"] from by decide]
    simp only [List.map_cons, List.map_nil, List.sum_cons, List.sum_nil]
    rw [show ([mkG 1 "Monday" 2 2 1 1 1, mkG 1 "Monday" 2 2 2 2 2].filter
        (fun g => g.day = "Monday")).map Gene.period = [2, 2] from by decide]
    rw [show listMax [2, 2] = 2 from by decide, show listMin [2, 2] = 2 from by decide]
    rw [show ([2, 2] : List Int).dedup.length = 1 from by decide]
    norm_num
  exact ⟨h1, h2, by rw [h1, h2]; norm_num⟩

/-- C2 (amended): the group-schedule-gap penalty equals, summed over each
listed group and each day on which that group has at least one gene,
`((maximum scheduled period − minimum scheduled period + 1) − the number of
scheduled genes, period multiplicities counted) × 0.5`. -/
theorem group_schedule_gap_spec (ind : Chromosome) (groups : List StudentGroup) :
    penalty_group_schedule_gap ind groups = specGapPenaltyMult ind groups := by
  unfold penalty_group_schedule_gap specGapPenaltyMult
  apply congrArg List.sum
  apply List.map_congr_left
  intro grp _
  have hts : ((genesOfGroup ind grp.group_id).map Gene.day).dedup.toFinset
      = ((genesOfGroup ind grp.group_id).map Gene.day).toFinset := by
    ext x
    simp
  rw [← hts, List.sum_toFinset _ (List.nodup_dedup _)]
  apply congrArg List.sum
  apply List.map_congr_left
  intro d hd
  have hne : ((genesOfGroup ind grp.group_id).filter (fun g => g.day = d)) ≠ [] := by
    rw [List.mem_dedup] at hd
    obtain ⟨g, hg, hgd⟩ := List.mem_map.1 hd
    intro hnil
    have hmem : g ∈ (genesOfGroup ind grp.group_id).filter (fun g => g.day = d) :=
      List.mem_filter.2 ⟨hg, by simp [hgd]⟩
    rw [hnil] at hmem
    exact absurd hmem (List.not_mem_nil g)
  have hfeq : (genesOfGroup ind grp.group_id).filter (fun g => g.day = d)
      = ind.genes.filter (fun g => g.group_id = grp.group_id ∧ g.day = d) := by
    unfold genesOfGroup
    rw [List.filter_filter]
    apply List.filter_congr
    intro g _
    simp [Bool.and_comm]
  have hPeq : ((genesOfGroup ind grp.group_id).filter
      (fun g => g.day = d)).map Gene.period = periodsOn ind grp.group_id d := by
    unfold periodsOn
    rw [hfeq]
  have hcnt : (ind.genes.countP (fun g => g.group_id = grp.group_id ∧ g.day = d))
      = (periodsOn ind grp.group_id d).length := by
    rw [List.countP_eq_length_filter]
    unfold periodsOn
    rw [List.length_map]
  have hPne : (periodsOn ind grp.group_id d).isEmpty = false := by
    rw [← hPeq]
    cases hc : (genesOfGroup ind grp.group_id).filter (fun g => g.day = d) with
    | nil => exact absurd hc hne
    | cons a t => rfl
  rw [hPeq]
  unfold dayGap
  rw [if_neg (by rw [hPne]; simp), hcnt]

end GA
